/-
Verification of the League-Schedule-Builder scheduling core.

Shallow embedding of the Python source into Lean 4.  Times of day are
modelled as minutes since midnight (Nat); calendar instants as a pair of
a day index and a minute of day.  Python float arithmetic is modelled by
exact arithmetic (Int / Rat) and commented at each use site; Python dicts
and Counters are modelled by insertion-ordered association lists or by
functions; fallible code (code that can raise) returns Option.
-/
import Mathlib

set_option maxRecDepth 4000

/- ===================================================================
   Section 1: E/M/L classification
   Sources: src/scheduler/eml.py (eml_category),
            src/scheduler_api/engine/utils.py (classify_slot_time),
            src/scheduler_api/engine/scheduler.py (_classify_eml).
   =================================================================== -/

/-- EMLCategory from src/scheduler/models.py (EARLY/MID/LATE). -/
inductive EMLCategory where
  | EARLY
  | MID
  | LATE
deriving DecidableEq, Repr

/-- eml_category from src/scheduler/eml.py.  Times are minutes of day;
Python compares datetime.time values, which is the same order.
The source uses inclusive comparisons (dt <= early_end, dt <= mid_end). -/
def eml_category (dt early_end mid_end : Nat) : EMLCategory :=
  if dt ≤ early_end then .EARLY
  else if dt ≤ mid_end then .MID
  else .LATE

/-- classify_slot_time from src/scheduler_api/engine/utils.py.  The source
converts the HH:MM thresholds and the slot time to minutes and compares
with <= (slot_minutes <= early_minutes, slot_minutes <= mid_minutes). -/
def classify_slot_time (slot_minutes early_minutes mid_minutes : Nat) : String :=
  if slot_minutes ≤ early_minutes then "Early"
  else if slot_minutes ≤ mid_minutes then "Mid"
  else "Late"

/-- _classify_eml from src/scheduler_api/engine/scheduler.py.  The source
compares zero-padded "HH:MM" strings lexicographically, which coincides
with comparing minutes of day; it uses strict <. -/
def classify_eml (end_hhmm early_end mid_end : Nat) : String :=
  if end_hhmm < early_end then "E"
  else if end_hhmm < mid_end then "M"
  else "L"

/- ===================================================================
   Section 2: per-pair quota allocation
   Source: src/scheduler_api/enhanced_scheduler.py (_build_pair_quota).
   A Python Counter keyed by team pairs is modelled by an
   insertion-ordered association list.
   =================================================================== -/

/-- Insertion-ordered association list standing for a Python Counter
keyed by (team, team). -/
abbrev PairTable := List ((String × String) × Nat)

/-- Counter lookup: missing keys count 0. -/
def tableGet (tbl : PairTable) (k : String × String) : Nat :=
  match tbl.find? (fun kv => kv.1 = k) with
  | some kv => kv.2
  | none => 0

/-- Counter increment pair_target[k] += v: update in place when the key
is present, append otherwise (Python dicts keep insertion order). -/
def tableInc : PairTable → (String × String) → Nat → PairTable
  | [], k, v => [(k, v)]
  | kv :: rest, k, v =>
      if kv.1 = k then (k, kv.2 + v) :: rest else kv :: tableInc rest k v

/-- defaultdict(list) append used to build by_div in _build_pair_quota. -/
def groupAppend : List (String × List String) → String → String → List (String × List String)
  | [], d, t => [(d, [t])]
  | (k, l) :: rest, d, t =>
      if k = d then (k, l ++ [t]) :: rest else (k, l) :: groupAppend rest d t

/-- by_div construction in _build_pair_quota: group team names by their
normalized division tag, skipping "unknown". -/
def groupByDiv (team_names : List String) (team_div : String → String) :
    List (String × List String) :=
  team_names.foldl (fun acc t =>
    let d := team_div t
    if d = "unknown" then acc else groupAppend acc d t) []

/-- All unordered pairs (arr[i], arr[j]) with i < j, in the generation
order of the two nested loops of _build_pair_quota. -/
def allPairs : List String → List (String × String)
  | [] => []
  | x :: xs => xs.map (fun y => (x, y)) ++ allPairs xs

/-- Python min(all_matchups, key=count): the first pair attaining the
minimal current count. -/
def minByCount (tbl : PairTable) (p : String × String) (ps : List (String × String)) :
    String × String :=
  ps.foldl (fun best q => if tableGet tbl q < tableGet tbl best then q else best) p

/-- The extra-games distribution loop of _build_pair_quota: extra times,
find the pair with the fewest games and add one game to it.  The []
case is unreachable from _build_pair_quota (n ≥ 2 gives a nonempty
pair list; Python min would raise there). -/
def distributeExtra (pairs : List (String × String)) : Nat → PairTable → PairTable
  | 0, tbl => tbl
  | n + 1, tbl =>
      match pairs with
      | [] => tbl
      | p :: ps => distributeExtra pairs n (tableInc tbl (minByCount tbl p ps) 1)

/-- Body of the per-division loop of _build_pair_quota. -/
def buildDivQuota (K : Nat) (tbl : PairTable) (arr : List String) : PairTable :=
  let n := arr.length
  if n < 2 then tbl
  else
    let total_games_needed := n * K
    let unique_matchups := n * (n - 1) / 2
    if unique_matchups = 0 then tbl
    else
      let base := total_games_needed / (2 * unique_matchups)
      let extra := total_games_needed - 2 * unique_matchups * base
      let tbl1 := (allPairs arr).foldl (fun t p => tableInc t p base) tbl
      if 0 < extra then distributeExtra (allPairs arr) extra tbl1 else tbl1

/-- _build_pair_quota from src/scheduler_api/enhanced_scheduler.py.
team_div is the normalized team → division map (self.team_div). -/
def build_pair_quota (team_div : String → String) (games_per_team : Nat)
    (team_names : List String) : PairTable :=
  (groupByDiv team_names team_div).foldl
    (fun tbl kv => buildDivQuota games_per_team tbl kv.2) []

/-- Total games a single team is allotted across all its pairs. -/
def pairTableTeamTotal (tbl : PairTable) (t : String) : Nat :=
  (tbl.map (fun kv =>
    (if kv.1.1 = t then kv.2 else 0) + (if kv.1.2 = t then kv.2 else 0))).sum

/-- Division map for the C3 failing input: one division of four teams. -/
def c3TeamDiv : String → String := fun _ => "div4"

/- ===================================================================
   Section 3: quota-fitting loop
   Source: src/scheduler_api/engine/scheduler.py (_fit_games_per_team).
   The while loop appends reversed duplicates of pool[i % len(pool)]
   while some counted team is below the target.  The Counter cnt always
   equals the appearance count over the current pool (it is initialized
   from the pool and incremented with each appended matchup), and its
   key set is the team set of the pool, so the loop condition is
   expressed directly on the pool.
   =================================================================== -/

/-- Matchup from src/scheduler_api/engine/scheduler.py. -/
structure EngineMatchup where
  division : String
  home : String
  away : String
  round_index : Nat
deriving DecidableEq, Repr, Inhabited

/-- The reversed duplicate Matchup(m.division, m.away, m.home, m.round_index). -/
def matchupRev (m : EngineMatchup) : EngineMatchup :=
  ⟨m.division, m.away, m.home, m.round_index⟩

/-- How many of the two endpoints of m are team t (cnt is incremented
once for m.home and once for m.away). -/
def appearancesIn (t : String) (m : EngineMatchup) : Nat :=
  (if m.home = t then 1 else 0) + (if m.away = t then 1 else 0)

/-- cnt[t] for the given pool: total appearances of t. -/
def poolCount (pool : List EngineMatchup) (t : String) : Nat :=
  (pool.map (appearancesIn t)).sum

/-- The key set of cnt: every team occurring in the pool. -/
def poolTeams (pool : List EngineMatchup) : List String :=
  pool.flatMap (fun m => [m.home, m.away])

/-- One iteration of the while-loop body of _fit_games_per_team:
append the reversed duplicate of pool[i % len(pool)] and advance i. -/
def fitStep : List EngineMatchup × Nat → List EngineMatchup × Nat
  | (pool, i) =>
      let m := pool.getD (i % pool.length) default
      (pool ++ [matchupRev m], i + 1)

/-- Negation of the while condition of _fit_games_per_team: every
counted team has at least games_per_team appearances. -/
def fitDone (K : Nat) (pool : List EngineMatchup) : Prop :=
  ∀ t ∈ poolTeams pool, K ≤ poolCount pool t

/-- matchupRev iterated j times. -/
def revIter (j : Nat) (m : EngineMatchup) : EngineMatchup :=
  matchupRev^[j] m

/-- Closed form of the matchup processed at loop iteration k: the k-th
element of the pool at iteration k, which is pool0[k mod len] reversed
k / len times. -/
def procElem (p0 : List EngineMatchup) (k : Nat) : EngineMatchup :=
  revIter (k / p0.length) (p0.getD (k % p0.length) default)

/- ===================================================================
   Section 4: schedule model and repair passes
   Sources: src/scheduler/models.py (Team.get_rest_days, Matchup.teams,
            ScheduledGame, Schedule),
            src/scheduler/passes/cap_fix.py,
            src/scheduler/passes/weekday_balance.py.
   =================================================================== -/

/-- ScheduledGame from src/scheduler/models.py, restricted to the
fields the repair passes read: the matchup endpoints (matchup.teams =
[home_team, away_team]), scheduled_date (as a day index: the passes
compare and subtract scheduled_date.date() and sort by scheduled_date),
game_id, and the slot start/end times of day in minutes (used by the
same-time-slot check of weekday balance). -/
structure SGame where
  home : String
  away : String
  scheduledDate : Nat
  gameId : Nat
  startMin : Nat
  endMin : Nat
deriving DecidableEq, Repr, Inhabited

/-- The per-team state read by the swap validity checks: Team.last_played
(a day index, or none when the team never played). -/
structure MTeam where
  lastPlayed : Option Nat
deriving DecidableEq, Repr

/-- Team.get_rest_days from src/scheduler/models.py: 999 when the team
never played, otherwise the day difference. -/
def get_rest_days (tm : MTeam) (currentDate : Nat) : Int :=
  match tm.lastPlayed with
  | none => 999
  | some lp => (currentDate : Int) - lp

/-- _is_swap_valid from src/scheduler/passes/cap_fix.py: for every team
of either matchup, the rest days at both swap positions must reach
config.rest_min_days.  It performs no same-day-conflict check. -/
def is_swap_valid (teams : String → MTeam) (rest_min_days : Int)
    (game1 game2 : SGame) : Bool :=
  ([game1.home, game1.away] ++ [game2.home, game2.away]).all (fun t =>
    let rest1 := get_rest_days (teams t) game1.scheduledDate
    let rest2 := get_rest_days (teams t) game2.scheduledDate
    decide (rest_min_days ≤ rest1) && decide (rest_min_days ≤ rest2))

/-- Index of the last game matching p (the Python for-loop rebinding
new_game1 / new_game2 keeps the last match). -/
def lastIdxMatching (p : SGame → Bool) (games : List SGame) : Option Nat :=
  (List.range games.length).foldl (fun acc i =>
    if p (games.getD i default) then some i else acc) none

/-- _simulate_swap from cap_fix.py and the identical
_simulate_weekday_swap from weekday_balance.py: deep-copy the schedule,
locate the two games by game_id (the elif means a game whose id equals
game1.game_id is never considered for game2), and exchange their
scheduled dates.  When either lookup fails Python raises (NameError);
this returns none. -/
def simulate_swap (games : List SGame) (id1 id2 : Nat) : Option (List SGame) :=
  match lastIdxMatching (fun g => g.gameId == id1) games,
        lastIdxMatching (fun g => !(g.gameId == id1) && (g.gameId == id2)) games with
  | some i1, some i2 =>
      let g1 := games.getD i1 default
      let g2 := games.getD i2 default
      some ((games.set i1 { g1 with scheduledDate := g2.scheduledDate }).set i2
        { g2 with scheduledDate := g1.scheduledDate })
  | _, _ => none

/-- games_by_date accumulation in _would_create_conflict: games are
appended to the bucket of their date, buckets in first-occurrence
order (Python dict insertion order). -/
def insertGroup : List (Nat × List SGame) → SGame → List (Nat × List SGame)
  | [], g => [(g.scheduledDate, [g])]
  | (d, gs) :: rest, g =>
      if g.scheduledDate = d then (d, gs ++ [g]) :: rest
      else (d, gs) :: insertGroup rest g

/-- The games_by_date dictionary of _would_create_conflict. -/
def groupByDate (games : List SGame) : List (Nat × List SGame) :=
  games.foldl insertGroup []

/-- The teams_on_date set walk of _would_create_conflict: true as soon
as a team is seen twice. -/
def seenWalk : List String → List String → Bool
  | [], _ => false
  | t :: rest, seen => if t ∈ seen then true else seenWalk rest (t :: seen)

/-- All team occurrences of a list of games, in walk order
(game.matchup.teams = [home, away] per game). -/
def dateTeams (gs : List SGame) : List String :=
  gs.flatMap (fun g => [g.home, g.away])

/-- Body of _would_create_conflict after the simulation: some date
bucket contains a repeated team. -/
def hasSameDayDup (games : List SGame) : Bool :=
  (groupByDate games).any (fun dg => seenWalk (dateTeams dg.2) [])

/-- _would_create_conflict from src/scheduler/passes/weekday_balance.py:
simulate the date swap, then detect any team scheduled twice on one
date in the simulated schedule. -/
def would_create_conflict (games : List SGame) (game1 game2 : SGame) : Option Bool :=
  (simulate_swap games game1.gameId game2.gameId).map hasSameDayDup

/-- _can_swap_weekday_games from weekday_balance.py: the two games must
occupy the same time-of-day window, all four teams must satisfy the
rest constraint at both dates, and the swap must not create a same-day
conflict. -/
def can_swap_weekday_games (teams : String → MTeam) (rest_min_days : Int)
    (games : List SGame) (game1 game2 : SGame) : Option Bool :=
  if game1.startMin ≠ game2.startMin ∨ game1.endMin ≠ game2.endMin then some false
  else if ¬ (([game1.home, game1.away] ++ [game2.home, game2.away]).all (fun t =>
      let rest1 := get_rest_days (teams t) game1.scheduledDate
      let rest2 := get_rest_days (teams t) game2.scheduledDate
      decide (rest_min_days ≤ rest1) && decide (rest_min_days ≤ rest2)) = true) then
    some false
  else
    match would_create_conflict games game1 game2 with
    | none => none
    | some true => some false
    | some false => some true

/-- Specification-side count: occurrences of team t among the games
scheduled on date d. -/
def teamDateAppearances (games : List SGame) (d : Nat) (t : String) : Nat :=
  ((games.filter (fun g => g.scheduledDate = d)).flatMap (fun g => [g.home, g.away])).count t

/-- First group with the given date key. -/
def findGroup : List (Nat × List SGame) → Nat → Option (List SGame)
  | [], _ => none
  | (d, gs) :: rest, e => if d = e then some gs else findGroup rest e

/- ------------------- cap_fix pass ------------------- -/

/-- The SchedulerConfig fields read by the cap-fix pass
(src/scheduler/config.py). -/
structure CapFixConfig where
  rest_min_days : Int
  max_gap_days : Int
  target_gap_days : Int
deriving DecidableEq, Repr

/-- Schedule.get_team_schedule from src/scheduler/models.py:
games whose matchup.teams contain the team. -/
def get_team_schedule (games : List SGame) (team : String) : List SGame :=
  games.filter (fun g => team = g.home ∨ team = g.away)

/-- Stable insertion by scheduled date (a new element goes after
existing equal dates). -/
def insertByDate (g : SGame) : List SGame → List SGame
  | [] => [g]
  | x :: xs =>
      if g.scheduledDate < x.scheduledDate then g :: x :: xs
      else x :: insertByDate g xs

/-- Python list.sort(key=scheduled_date): stable sort by date.  A stable
sort by a key is extensionally unique, so this insertion sort is the
same function as the sort in the source. -/
def sortByDate (games : List SGame) : List SGame :=
  games.foldr insertByDate []

/-- Consecutive date differences of a game list. -/
def consecGaps : List SGame → List Int
  | a :: b :: rest => ((b.scheduledDate : Int) - a.scheduledDate) :: consecGaps (b :: rest)
  | _ => []

/-- _get_team_gaps from cap_fix.py: gaps between consecutive games of a
team in date order. -/
def get_team_gaps (games : List SGame) (team : String) : List Int :=
  consecGaps (sortByDate (get_team_schedule games team))

/-- _calculate_swap_improvement from cap_fix.py.  All contributions are
integer-valued, so the Python float arithmetic is exact and Int stands
in for it.  Returns -1 for an invalid swap; none models the exception
when a game id cannot be found (unreachable from the pass). -/
def calculate_swap_improvement (teams : String → MTeam) (cfg : CapFixConfig)
    (games : List SGame) (game1 game2 : SGame) (target_team : String) : Option Int :=
  if ¬ is_swap_valid teams cfg.rest_min_days game1 game2 then some (-1)
  else
    let current_gaps := get_team_gaps games target_team
    match simulate_swap games game1.gameId game2.gameId with
    | none => none
    | some temp =>
        let new_gaps := get_team_gaps temp target_team
        let pen : Int := (new_gaps.map (fun gp =>
          if cfg.max_gap_days < gp then (gp - cfg.max_gap_days) * 10 else 0)).sum
        let bonus : Int := ((current_gaps.zip new_gaps).map (fun ogng =>
          if ogng.2 < ogng.1 ∧ cfg.target_gap_days < ogng.1 then ogng.1 - ogng.2 else 0)).sum
        some (0 - pen + bonus)

/-- One entry of the potential_swaps list of _find_potential_swaps
(the dict with keys game1, game2, improvement, type). -/
structure SwapProposal where
  game1 : SGame
  game2 : SGame
  improvement : Int
  swapKind : String
deriving DecidableEq, Repr

/-- Python list.index: first position of an equal element; none models
the ValueError when absent. -/
def indexOfGame (games : List SGame) (g : SGame) : Option Nat :=
  games.findIdx? (fun x => x = g)

/-- _find_potential_swaps from cap_fix.py: sort all games by date, then
for every game strictly between the two violation games that does not
involve the team, score swapping it with game1 and with game2, keeping
only proposals with strictly positive improvement.  The improvement
calls receive the schedule with its games sorted, as in the source
(all_games.sort() sorts schedule.games in place). -/
def find_potential_swaps (teams : String → MTeam) (cfg : CapFixConfig)
    (games : List SGame) (team : String) (game1 game2 : SGame) :
    Option (List SwapProposal) :=
  let all_games := sortByDate games
  match indexOfGame all_games game1, indexOfGame all_games game2 with
  | some i1, some i2 =>
      (List.range' (i1 + 1) (i2 - (i1 + 1))).foldl (fun acc i =>
        match acc with
        | none => none
        | some swaps =>
            let cand := all_games.getD i default
            if team = cand.home ∨ team = cand.away then some swaps
            else
              match calculate_swap_improvement teams cfg all_games game1 cand team with
              | none => none
              | some imp1 =>
                  let swaps1 := if 0 < imp1 then swaps ++ [⟨game1, cand, imp1, "swap1"⟩]
                                else swaps
                  match calculate_swap_improvement teams cfg all_games game2 cand team with
                  | none => none
                  | some imp2 =>
                      some (if 0 < imp2 then swaps1 ++ [⟨game2, cand, imp2, "swap2"⟩]
                            else swaps1)) (some [])
  | _, _ => none

/-- _execute_swap from cap_fix.py: exchange the scheduled dates of the
two chosen games.  The source mutates the two game objects inside
schedule.games; with distinct game ids this map is that effect. -/
def execute_swap (games : List SGame) (game1 game2 : SGame) : List SGame :=
  games.map (fun g =>
    if g.gameId = game1.gameId then { g with scheduledDate := game2.scheduledDate }
    else if g.gameId = game2.gameId then { g with scheduledDate := game1.scheduledDate }
    else g)

/-- _fix_team_gap_violation from cap_fix.py: among the enumerated
proposals take best_swap = min(potential_swaps, key=improvement) - the
FIRST proposal with the minimal improvement value - and commit it when
its improvement is positive.  Returns whether a swap was committed and
the resulting games (the source mutates schedule.games, which
_find_potential_swaps left sorted by date). -/
def fix_team_gap_violation (teams : String → MTeam) (cfg : CapFixConfig)
    (games : List SGame) (team : String) (game1 game2 : SGame) :
    Option (Bool × List SGame) :=
  match find_potential_swaps teams cfg games team game1 game2 with
  | none => none
  | some [] => some (false, sortByDate games)
  | some (p :: ps) =>
      let best := ps.foldl (fun b q => if q.improvement < b.improvement then q else b) p
      if 0 < best.improvement then
        some (true, execute_swap (sortByDate games) best.game1 best.game2)
      else some (false, sortByDate games)

/- ------------------- concrete inputs for C4 and C5 ------------------- -/

/-- Team map for the C4 / C5 scenarios: no team has played yet, so
every rest check passes (get_rest_days = 999). -/
def noHistoryTeams : String → MTeam := fun _ => ⟨none⟩

/-- C5 scenario: X-Y on day 10, Z-W on day 20, X-Q on day 20. -/
def c5g1 : SGame := ⟨"X", "Y", 10, 1, 0, 60⟩
def c5g2 : SGame := ⟨"Z", "W", 20, 2, 0, 60⟩
def c5g3 : SGame := ⟨"X", "Q", 20, 3, 0, 60⟩
def c5games : List SGame := [c5g1, c5g2, c5g3]

/-- C4 scenario: team T plays days 0, 10, 30 (gap 20 > max_gap 12..15);
two candidate games sit between them on days 18 and 20. -/
def c4cfg : CapFixConfig := ⟨1, 15, 5⟩
def c4g0 : SGame := ⟨"T", "O", 0, 0, 0, 60⟩
def c4g1 : SGame := ⟨"T", "P", 10, 1, 0, 60⟩
def c4c1 : SGame := ⟨"U", "V", 18, 2, 0, 60⟩
def c4c2 : SGame := ⟨"W", "R", 20, 3, 0, 60⟩
def c4g2 : SGame := ⟨"T", "Q", 30, 4, 0, 60⟩
def c4games : List SGame := [c4g0, c4g1, c4c1, c4c2, c4g2]

/- ===================================================================
   Section 5: late-fairness optimizer frame property
   Source: src/scheduler_api/schedule_optimizer.py
   (_place_teams_in_late_slots; _try_forced_placement).
   =================================================================== -/

/-- A game row of the optimizer bucket: the dict with keys start, end,
rink, home, away, div (end renamed endT: end is a Lean keyword). -/
structure OGame where
  start : String
  endT : String
  rink : String
  home : String
  away : String
  div : String
deriving DecidableEq, Repr, Inhabited

/-- Step 2 of _place_teams_in_late_slots: build cleared_game keeping the
original start, end and rink and clearing home, away, div. -/
def clearGame (g : OGame) : OGame :=
  { start := g.start, endT := g.endT, rink := g.rink, home := "", away := "", div := "" }

/-- The final verification loop of _place_teams_in_late_slots (the
"Verifying time structure preservation" loop): for every index of
zip(working_bucket, cleared_games), when the rebuilt game differs from
the original in start, end, or rink, those three fields are restored
from the original.  zip truncates at the shorter list, exactly as the
Python zip does; indices beyond it stay untouched. -/
def restoreTimeStructure (original rebuilt : List OGame) : List OGame :=
  rebuilt.mapIdx (fun i g =>
    match original[i]? with
    | some o =>
        if g.start ≠ o.start ∨ g.endT ≠ o.endT ∨ g.rink ≠ o.rink then
          { g with start := o.start, endT := o.endT, rink := o.rink }
        else g
    | none => g)

/-- _place_teams_in_late_slots: clear the bucket (Step 2), run the
placement phases, then verify and restore the time structure.  The
placement phases (Phase 1 late slots, Phase 2 days-since with simple /
chain / rotation swaps, Phase 3 residual incl. _try_forced_placement)
are abstracted as a function on the cleared list: every mutation they
perform is an index assignment cleared_games[i] = {**cleared_games[i],
home, away, div} or an assignment to a home/away field, so the phases
are some function from the cleared list to a list of games; the
preservation theorem quantifies over all such functions.  The clearing
step and the verification/restore loop are embedded exactly; the final
per-game .copy() is the identity under value semantics. -/
def place_teams_in_late_slots (phases : List OGame → List OGame)
    (bucket : List OGame) : List OGame :=
  restoreTimeStructure bucket (phases (bucket.map clearGame))

/-- Concrete phase function for the C6 witness: assign a home team
everywhere (an index-field assignment, like the source phases). -/
def c6phases : List OGame → List OGame :=
  fun l => l.map (fun g => { g with home := "H", away := "A", div := "d1" })

/-- Concrete bucket for the C6 witness. -/
def c6bucket : List OGame :=
  [⟨"2024-01-01 21:00", "2024-01-01 22:20", "Rink 1", "X", "Y", "d1"⟩,
   ⟨"2024-01-02 22:40", "2024-01-03 00:00", "Rink 2", "Z", "W", "d1"⟩]

/- ===================================================================
   Section 6: EnhancedScheduler
   Source: src/scheduler_api/enhanced_scheduler.py.
   Calendar instants are (day index, minute of day); the string
   renderings (Date %Y-%m-%d, Start %I:%M %p, Weekday %A, isocalendar
   week) are carried as the underlying numbers: date as the day index,
   weekday as day mod 7, week as day / 7.  Date equality and ordering
   in the source go through those strings, which are faithful to the
   numbers.  Python floats are modelled by Rat.  The global random
   module is modelled by a ShuffleOracle: random.seed(s) makes all
   later shuffles a fixed function of s; teamShuffle is the shuffle of
   round_robin_pairs (which reseeds with the configured seed on every
   call) and pairShuffle i is the i-th candidate-list shuffle of the
   heuristic loop after seeding.
   =================================================================== -/

/-- A processed slot (the dict built at the top of build_schedule, then
extended with Segment and AssignedDivision). -/
structure PSlot where
  slotId : Nat
  startDay : Nat
  startMin : Nat
  endDay : Nat
  endMin : Nat
  rink : String
  bucket : String
  segment : Nat
  assignedDivision : String
deriving DecidableEq, Repr, Inhabited

/-- A schedule row (the dict appended to games_assigned).  bucketWeek is
the "Bucket" key, present only on heuristically assigned rows. -/
structure Game where
  date : Nat
  startMin : Nat
  endMin : Nat
  rink : String
  division : String
  home : String
  away : String
  eml : String
  weekday : Nat
  week : Nat
  slotId : Nat
  bucketWeek : Option Nat
deriving DecidableEq, Repr, Inhabited

/-- An input slot, already parsed (the ISO-string parsing of the source
is caller-side preprocessing outside this spec). -/
structure RawSlot where
  startDay : Nat
  startMin : Nat
  endDay : Nat
  endMin : Nat
  resource : String
deriving DecidableEq, Repr

/-- An input team record. -/
structure TeamRec where
  name : String
  division : String
deriving DecidableEq, Repr

/-- The params dict fields read by EnhancedScheduler; fields that the
scheduler computes dynamically when absent are Options. -/
structure EParams where
  gamesPerTeam : Option Nat
  idealGapDays : Option Nat
  minRestDays : Option Nat
  maxGapDays : Option Nat
  noBackToBack : Bool
  homeAwayBalance : Bool
  weekdayBalance : Bool
  varianceMinimization : Bool
  noInterdivision : Bool
  blockSize : Option Nat
  blockRecipe : List (String × Nat)
  blockStrictOnce : Bool
  earlyEnd : Nat
  midEnd : Nat
  seed : Nat
  gapDivisor : Nat
  restDivisor : Nat
  idleDivisor : Nat
deriving Repr

/-- The behavior of the seeded global random module: the shuffle used by
round_robin_pairs (reseeded with the same seed at each call, hence one
fixed function) and the i-th heuristic candidate shuffle after
seeding. -/
structure ShuffleOracle where
  teamShuffle : List String → List String
  pairShuffle : Nat → List (String × String) → List (String × String)

/-- Leading maximal digit run of a character list (re.search digit
group). -/
def takeDigits : List Char → List Char
  | [] => []
  | c :: rest => if c.isDigit then c :: takeDigits rest else []

/-- First digit run anywhere in the string (re.search r digits). -/
def firstDigitRun : List Char → Option (List Char)
  | [] => none
  | c :: rest => if c.isDigit then some (c :: takeDigits rest) else firstDigitRun rest

/-- Python str.lower on an ASCII character. -/
def lowerChar (c : Char) : Char :=
  if 'A' ≤ c ∧ c ≤ 'Z' then Char.ofNat (c.toNat + 32) else c

/-- Python str.strip: drop leading whitespace. -/
def dropLeadingWS : List Char → List Char
  | [] => []
  | c :: rest => if c.isWhitespace then dropLeadingWS rest else c :: rest

/-- s.strip().lower(), structurally on the character list. -/
def stripLower (s : String) : String :=
  String.mk (((dropLeadingWS ((dropLeadingWS s.toList.reverse).reverse)).map lowerChar))

/-- s.replace(" ", ""). -/
def removeSpaces (s : String) : String :=
  String.mk (s.toList.filter (fun c => ¬ c = ' '))

/-- The division normalizer of enhanced_scheduler.py (its name there
has a leading underscore and an underscore before div): collapse
division labels to a canonical tag. -/
def normDiv (s : String) : String :=
  if s = "" then "unknown"
  else
    let s := stripLower s
    if s = "tin super" ∨ s = "tin super division" then "div12"
    else if s = "tin south" ∨ s = "tin south division" then "div8"
    else
      match firstDigitRun s.toList with
      | some ds => "div" ++ String.mk ds
      | none => removeSpaces s

/-- The inverse display mapping of enhanced_scheduler.py (the method
that maps normalized tags back to display names). -/
def denormDiv (s : String) : String :=
  if s = "div12" then "Tin Super"
  else if s = "div8" then "Tin South"
  else s

/-- classify_bucket from enhanced_scheduler.py: classifies the START
time with strict thresholds. -/
def classify_bucket (startMin early_end mid_end : Nat) : String :=
  if startMin < early_end then "Early"
  else if startMin < mid_end then "Mid"
  else "Late"

/-- One circle-method rotation arr = [arr[0]] + [arr[-1]] + arr[1:-1]. -/
def rotateRR : List String → List String
  | [] => []
  | a :: rest =>
      match rest.getLast? with
      | none => [a, a]
      | some lastEl => a :: lastEl :: rest.dropLast

/-- The pairs (arr[i], arr[-(i+1)]) of one round, skipping BYE pairs. -/
def rrRoundPairs (arr : List String) (half : Nat) (bye : Option String) :
    List (String × String) :=
  (List.range half).filterMap (fun i =>
    let a := arr.getD i ""
    let b := arr.getD (arr.length - 1 - i) ""
    if bye = some a ∨ bye = some b then none else some (a, b))

/-- The n-1 rounds of the circle method. -/
def rrRoundsGo (bye : Option String) (half : Nat) : Nat → List String →
    List (List (String × String))
  | 0, _ => []
  | n + 1, arr => rrRoundPairs arr half bye :: rrRoundsGo bye half n (rotateRR arr)

/-- round_robin_pairs from enhanced_scheduler.py.  The strict filler
always calls it with the configured seed, so the reseeded shuffle of
the non-anchor teams is the fixed function shuffleT.  Odd rounds are
re-emitted with home/away swapped. -/
def round_robin_pairs (shuffleT : List String → List String) (teams : List String) :
    List (List (String × String)) :=
  let bye := if teams.length % 2 = 1 then some "__BYE__" else none
  let arr := match bye with
             | some b => teams ++ [b]
             | none => teams
  let n := arr.length
  let half := n / 2
  let arr := if 2 < n then
               match arr with
               | [] => []
               | a :: rest => a :: shuffleT rest
             else arr
  (rrRoundsGo bye half (n - 1) arr).mapIdx (fun r_i round =>
    if r_i % 2 = 1 then round.map (fun ab => (ab.2, ab.1)) else round)

/- ------------------- block segmentation ------------------- -/

/-- normalized[d] = int((c / recipe_total) * block_size): exact rational
floor standing for the float computation. -/
def scaleEntry (blockSize recipeTotal c : Nat) : Nat :=
  c * blockSize / recipeTotal

/-- normalized[order[i % len(order)]] += 1 (key always present). -/
def incKeyList : List (String × Nat) → String → List (String × Nat)
  | [], _ => []
  | (k, v) :: rest, d =>
      if k = d then (k, v + 1) :: rest else (k, v) :: incKeyList rest d

/-- The remainder round-robin loop of _segment_and_assign_divisions. -/
def distributeRem (order : List String) : Nat → Nat → List (String × Nat) →
    List (String × Nat)
  | 0, _, normalized => normalized
  | r + 1, i, normalized =>
      distributeRem order r (i + 1)
        (incKeyList normalized (order.getD (i % order.length) ""))

/-- Stable insertion sort on strings (Python sorted on the tag list;
tags are unique, and Lean string order is the same code-point order). -/
def insertStr (s : String) : List String → List String
  | [] => [s]
  | x :: xs => if s < x then s :: x :: xs else x :: insertStr s xs

def sortStrings (l : List String) : List String :=
  l.foldr insertStr []

/-- The normalized dict of the scaling branch. -/
def scaleRecipeEntries (blockSize : Nat) (recipe : List (String × Nat)) :
    List (String × Nat) :=
  recipe.map (fun kv => (kv.1, scaleEntry blockSize ((recipe.map (·.2)).sum) kv.2))

/-- per_block_counts of _segment_and_assign_divisions: the recipe when
its sum equals the block size, otherwise the proportionally scaled
counts with the remainder distributed round-robin over the sorted
tags. -/
def scaledCounts (blockSize : Nat) (recipe : List (String × Nat)) : List (String × Nat) :=
  if (recipe.map (·.2)).sum = blockSize then recipe
  else
    distributeRem (sortStrings (recipe.map (·.1)))
      (blockSize - ((scaleRecipeEntries blockSize recipe).map (·.2)).sum) 0
      (scaleRecipeEntries blockSize recipe)

/-- One pass of the template-building while loop: walk the remaining
counts in order, appending each tag with remaining quota while the
template is below the block size. -/
def templatePassGo (bs : Nat) : List (String × Nat) → List String →
    (List (String × Nat) × List String)
  | [], tpl => ([], tpl)
  | (d, c) :: rest, tpl =>
      if 0 < c ∧ tpl.length < bs then
        ((d, c - 1) :: (templatePassGo bs rest (tpl ++ [d])).1,
          (templatePassGo bs rest (tpl ++ [d])).2)
      else
        ((d, c) :: (templatePassGo bs rest tpl).1, (templatePassGo bs rest tpl).2)

/-- The while loop, fueled: when the per-block counts sum to the block
size, bs passes always complete the template (Python would loop forever
exactly when a pass adds nothing, which cannot happen then). -/
def buildTemplate (bs : Nat) : Nat → List (String × Nat) → List String → List String
  | 0, _, tpl => tpl
  | fuel + 1, remain, tpl =>
      if tpl.length < bs then
        buildTemplate bs fuel (templatePassGo bs remain tpl).1 (templatePassGo bs remain tpl).2
      else tpl

def mkTemplate (bs : Nat) (counts : List (String × Nat)) : List String :=
  buildTemplate bs bs counts []

/-- The stamping loop for one segment: the k-th slot of the segment (in
list order) receives template[k % len(template)]. -/
def stampSegGo (template : List String) (seg : Nat) : List PSlot → Nat → List PSlot
  | [], _ => []
  | s :: rest, k =>
      if s.segment = seg then
        { s with assignedDivision := template.getD (k % template.length) s.assignedDivision }
          :: stampSegGo template seg rest (k + 1)
      else s :: stampSegGo template seg rest k

def stampSeg (template : List String) (seg : Nat) (slots : List PSlot) : List PSlot :=
  stampSegGo template seg slots 0

/-- _segment_and_assign_divisions from enhanced_scheduler.py: assign
Segment = index / block_size, then stamp EVERY block (full blocks and
the partial tail alike) by cycling the interleaved template.  none
models the raises: ZeroDivisionError for block_size 0 or an empty
template, division by a zero recipe total in the scaling, and the
slots[-1] IndexError on an empty slot list. -/
def segment_and_assign_divisions (blockSize : Nat) (blockRecipe : List (String × Nat))
    (slots : List PSlot) : Option (List PSlot) :=
  if blockSize = 0 then none
  else if blockRecipe = [] then
    some (slots.mapIdx (fun i s => { s with segment := i / blockSize }))
  else if (blockRecipe.map (·.2)).sum = 0 then none
  else
    match (slots.mapIdx (fun i s => { s with segment := i / blockSize })).getLast? with
    | none => none
    | some lastSlot =>
        if mkTemplate blockSize (scaledCounts blockSize blockRecipe) = [] then none
        else some ((List.range (lastSlot.segment + 1)).foldl
          (fun sl seg =>
            stampSeg (mkTemplate blockSize (scaledCounts blockSize blockRecipe)) seg sl)
          (slots.mapIdx (fun i s => { s with segment := i / blockSize })))

/- ------------------- shared state helpers ------------------- -/

/-- Pointwise update of a dict modelled as a function. -/
def updf {α β : Type} [DecidableEq α] (f : α → β) (k : α) (v : β) : α → β :=
  fun x => if x = k then v else f x

/-- counter[t] += 1. -/
def bumpTeam (f : String → Nat) (t : String) : String → Nat :=
  updf f t (f t + 1)

/-- played_in_segment[seg].add(t): set add, modelled on a duplicate-free
list. -/
def addTeamSeg (f : Nat → List String) (seg : Nat) (t : String) : Nat → List String :=
  updf f seg (if t ∈ f seg then f seg else f seg ++ [t])

/-- First-match association lookup (dict access). -/
def lookupAssoc {β : Type} : List (String × β) → String → Option β
  | [], _ => none
  | (k, v) :: rest, d => if k = d then some v else lookupAssoc rest d

/-- Does the Counter have this key (Python: key in pair_remaining). -/
def tableHasKey (tbl : PairTable) (k : String × String) : Bool :=
  (tbl.find? (fun kv => kv.1 = k)).isSome

/-- Counter assignment pair_remaining[k] = v (key update in place). -/
def tableSet : PairTable → (String × String) → Nat → PairTable
  | [], k, v => [(k, v)]
  | kv :: rest, k, v => if kv.1 = k then (k, v) :: rest else kv :: tableSet rest k v

/-- Chronological sort key of a processed slot. -/
def slotStartKey (s : PSlot) : Nat :=
  s.startDay * 1440 + s.startMin

/-- Stable insertion by start instant (Python list.sort key=Start). -/
def insertSlotByStart (s : PSlot) : List PSlot → List PSlot
  | [] => [s]
  | x :: xs =>
      if slotStartKey s < slotStartKey x then s :: x :: xs
      else x :: insertSlotByStart s xs

def sortSlotsByStart (slots : List PSlot) : List PSlot :=
  slots.foldr insertSlotByStart []

/-- seg_slots defaultdict(list): group slots by segment, buckets in
first-occurrence order. -/
def segGroupAppend : List (Nat × List PSlot) → PSlot → List (Nat × List PSlot)
  | [], s => [(s.segment, [s])]
  | (k, l) :: rest, s =>
      if s.segment = k then (k, l ++ [s]) :: rest
      else (k, l) :: segGroupAppend rest s

def groupBySegment (slots : List PSlot) : List (Nat × List PSlot) :=
  slots.foldl segGroupAppend []

/-- sorted(seg_slots.keys()) iteration: sort the groups by key. -/
def insertSegGroup (g : Nat × List PSlot) : List (Nat × List PSlot) → List (Nat × List PSlot)
  | [] => [g]
  | x :: xs => if g.1 < x.1 then g :: x :: xs else x :: insertSegGroup g xs

def sortSegGroups (gs : List (Nat × List PSlot)) : List (Nat × List PSlot) :=
  gs.foldr insertSegGroup []

/-- choose_home_away from enhanced_scheduler.py. -/
def choose_home_away (a b : String) (homeCount : String → Nat) : String × String :=
  if homeCount a ≤ homeCount b then (a, b) else (b, a)

/-- gap_days = (slot_start - last_game_time).total_seconds() / 86400, in
exact rationals (days of 1440 minutes). -/
def gapDaysQ (slotStart lastT : Nat × Nat) : ℚ :=
  (((slotStart.1 : ℚ) * 1440 + slotStart.2) - ((lastT.1 : ℚ) * 1440 + lastT.2)) / 1440

/-- can_play from enhanced_scheduler.py. -/
def can_play (minRestDays : Nat) (slotStart : Nat × Nat) : Option (Nat × Nat) → Bool
  | none => true
  | some lastT => decide ((minRestDays : ℚ) ≤ gapDaysQ slotStart lastT)

/-- The schedule row built from a slot (the dict literal of the
source); bucketWeek is some only for heuristic rows. -/
def mkGameFromSlot (s : PSlot) (division home away : String) (bucketWeek : Option Nat) : Game :=
  { date := s.startDay, startMin := s.startMin, endMin := s.endMin, rink := s.rink,
    division := division, home := home, away := away, eml := s.bucket,
    weekday := s.startDay % 7, week := s.startDay / 7, slotId := s.slotId,
    bucketWeek := bucketWeek }

/- ------------------- strict block filler ------------------- -/

/-- The state threaded through _strict_block_fill. -/
structure StrictState where
  games : List Game
  usedSlotIds : List Nat
  playedInSegment : Nat → List String
  homeCount : String → Nat
  teamGameCount : String → Nat
  divRoundIdx : String → Nat

/-- The want Counter of a block: slots per assigned division,
skipping "All". -/
def countAssignedDivs (slots : List PSlot) : List (String × Nat) :=
  slots.foldl (fun acc s =>
    if s.assignedDivision = "All" then acc
    else
      match lookupAssoc acc s.assignedDivision with
      | some v => tableSetStr acc s.assignedDivision (v + 1)
      | none => acc ++ [(s.assignedDivision, 1)]) []
where
  tableSetStr : List (String × Nat) → String → Nat → List (String × Nat)
    | [], k, v => [(k, v)]
    | kv :: rest, k, v => if kv.1 = k then (k, v) :: rest else kv :: tableSetStr rest k v

/-- The per-division body of the strict filler; none models the raised
ValueErrors (missing round robin, short round, insufficient slots) and
the ZeroDivisionError on an empty round list. -/
def strictFillDiv (divRounds : List (String × List (List (String × String))))
    (seg : Nat) (slots : List PSlot) (d : String) (gamesNeeded : Nat)
    (st : StrictState) : Option StrictState :=
  match lookupAssoc divRounds d with
  | none => none
  | some rr =>
      if rr.length = 0 then none
      else
        let r_idx := st.divRoundIdx d % rr.length
        let round_pairs := rr.getD r_idx []
        let games_to_use := round_pairs.take gamesNeeded
        if games_to_use.length ≠ gamesNeeded then none
        else
          let d_slots := slots.filter (fun s =>
            s.assignedDivision = d ∧ ¬ st.usedSlotIds.contains s.slotId)
          if d_slots.length < gamesNeeded then none
          else
            let slots_to_use := d_slots.take gamesNeeded
            let st1 := (games_to_use.zip slots_to_use).foldl (fun acc p =>
              let pair := p.1
              let s := p.2
              let ha := choose_home_away pair.1 pair.2 acc.homeCount
              { games := acc.games ++ [mkGameFromSlot s (denormDiv d) ha.1 ha.2 none],
                usedSlotIds := acc.usedSlotIds ++ [s.slotId],
                playedInSegment := addTeamSeg (addTeamSeg acc.playedInSegment seg ha.1) seg ha.2,
                homeCount := acc.homeCount,
                teamGameCount := bumpTeam (bumpTeam acc.teamGameCount ha.1) ha.2,
                divRoundIdx := acc.divRoundIdx }) st
            some { st1 with divRoundIdx := updf st1.divRoundIdx d (st1.divRoundIdx d + 1) }

/-- The per-recipe-entry loop inside a block. -/
def strictFillDivs (divRounds : List (String × List (List (String × String))))
    (seg : Nat) (slots : List PSlot) :
    List (String × Nat) → StrictState → Option StrictState
  | [], st => some st
  | (d, needed) :: rest, st =>
      match strictFillDiv divRounds seg slots d needed st with
      | none => none
      | some st1 => strictFillDivs divRounds seg slots rest st1

/-- The per-segment loop of _strict_block_fill: stop for good once every
team reached the cap; skip blocks that are partial, recipe-mismatched
or whose fill would push some recipe-division team over the cap. -/
def strictFillSegs (recipe : List (String × Nat)) (blockSize gamesPerTeam : Nat)
    (teamKeys : List String) (teamsByDiv : List (String × List String))
    (divRounds : List (String × List (List (String × String)))) :
    List (Nat × List PSlot) → StrictState → Option StrictState
  | [], st => some st
  | (seg, slots) :: rest, st =>
      if teamKeys.all (fun t => gamesPerTeam ≤ st.teamGameCount t) then some st
      else
        let want := countAssignedDivs slots
        let isFull := slots.length = blockSize
        let blockMatches := isFull ∧
          recipe.all (fun kv => (lookupAssoc want kv.1).getD 0 = kv.2) ∧
          (recipe.map (·.2)).sum = blockSize
        if ¬ blockMatches then
          strictFillSegs recipe blockSize gamesPerTeam teamKeys teamsByDiv divRounds rest st
        else
          let blockWouldExceed := recipe.any (fun kv =>
            ((lookupAssoc teamsByDiv kv.1).getD []).any (fun t =>
              gamesPerTeam < st.teamGameCount t + 1))
          if blockWouldExceed then
            strictFillSegs recipe blockSize gamesPerTeam teamKeys teamsByDiv divRounds rest st
          else
            match strictFillDivs divRounds seg slots recipe st with
            | none => none
            | some st1 =>
                strictFillSegs recipe blockSize gamesPerTeam teamKeys teamsByDiv divRounds rest st1

/-- _strict_block_fill from enhanced_scheduler.py. -/
def strict_block_fill (gamesPerTeam blockSize : Nat) (blockRecipe : List (String × Nat))
    (blockStrictOnce : Bool) (shuffleT : List String → List String)
    (teamNames teamKeys : List String) (teamDiv : String → String)
    (slots : List PSlot) (homeCount teamGameCount : String → Nat) :
    Option StrictState :=
  let st0 : StrictState :=
    ⟨[], [], fun _ => [], homeCount, teamGameCount, fun _ => 0⟩
  if ¬ (blockStrictOnce ∧ blockRecipe ≠ [] ∧ blockSize ≠ 0) then some st0
  else
    let teamsByDiv := groupByDiv teamNames teamDiv
    let divRounds := blockRecipe.filterMap (fun kv =>
      match lookupAssoc teamsByDiv kv.1 with
      | some ts => some (kv.1, round_robin_pairs shuffleT ts)
      | none => none)
    strictFillSegs blockRecipe blockSize gamesPerTeam teamKeys teamsByDiv divRounds
      (sortSegGroups (groupBySegment slots)) st0

/- ------------------- heuristic fill ------------------- -/

/-- The parameter values the heuristic loop reads. -/
structure HeurCfg where
  gamesPerTeam : Nat
  targetGapDays : Nat
  minRestDays : Nat
  maxIdleDays : Nat
  avoidBackToBack : Bool
  balanceHomeAway : Bool
  balanceWeekdays : Bool
  varianceMinimization : Bool
  noInterdivision : Bool
  teamNames : List String
  teamKeys : List String

/-- The mutable state of the heuristic loop of build_schedule. -/
structure HeurState where
  games : List Game
  lastGameTime : String → Option (Nat × Nat)
  oppLastWeek : String → Option String
  homeCount : String → Nat
  bucketCount : String → String → Nat
  weekdayCount : String → Nat → Nat
  playedInSegment : Nat → List String
  teamGameCount : String → Nat
  pairRemaining : PairTable
  segDivRemaining : Nat → String → Nat
  shuffleIdx : Nat

/-- same_div from build_schedule. -/
def same_div (noInterdivision : Bool) (teamDiv : String → String) (a b : String) : Bool :=
  let da := teamDiv a
  let db := teamDiv b
  if noInterdivision then da = db
  else da = db ∨ da = "unknown" ∨ db = "unknown"

/-- The candidate pairs offered to a pick: pairs with remaining quota,
in table order, before the shuffle. -/
def pairsPositive (tbl : PairTable) : List (String × String) :=
  (tbl.filter (fun kv => 0 < kv.2)).map (·.1)

/-- The filters at the top of pick (cap, slot division, once per
segment, same division, and - when not relaxed - rest and
back-to-back). -/
def pickOk (cfg : HeurCfg) (teamDiv : String → String) (st : HeurState) (slot : PSlot)
    (relax : Bool) (a b : String) : Bool :=
  if cfg.gamesPerTeam ≤ st.teamGameCount a ∨ cfg.gamesPerTeam ≤ st.teamGameCount b then
    false
  else if slot.assignedDivision ≠ "All" ∧
      (teamDiv a ≠ slot.assignedDivision ∨ teamDiv b ≠ slot.assignedDivision) then false
  else if a ∈ st.playedInSegment slot.segment ∨ b ∈ st.playedInSegment slot.segment then
    false
  else if ¬ same_div cfg.noInterdivision teamDiv a b then false
  else if ¬ relax ∧
      (¬ can_play cfg.minRestDays (slot.startDay, slot.startMin) (st.lastGameTime a) ∨
       ¬ can_play cfg.minRestDays (slot.startDay, slot.startMin) (st.lastGameTime b) ∨
       (cfg.avoidBackToBack ∧ (st.oppLastWeek a = some b ∨ st.oppLastWeek b = some a))) then
    false
  else true

/-- The scoring block of pick.  The float constants 1.5, 0.5, 0.2, 0.1
and the -1e18 sentinel are carried as exact rationals standing for the
Python floats. -/
def pickScore (st : HeurState) (cfg : HeurCfg) (slot : PSlot) (relax : Bool)
    (a b : String) : ℚ :=
  let score : ℚ := 1000
  let score :=
    if ¬ relax then
      let f := fun (score : ℚ) (t : String) =>
        match st.lastGameTime t with
        | none => score
        | some lastT =>
            let gap := gapDaysQ (slot.startDay, slot.startMin) lastT
            let score := score - |gap - (cfg.targetGapDays : ℚ)| * (3 / 2)
            if (cfg.maxIdleDays : ℚ) < gap then score - 1000 else score
      f (f score a) b
    else
      if slot.assignedDivision ≠ "All" then
        let pa := a ∉ st.playedInSegment slot.segment
        let pb := b ∉ st.playedInSegment slot.segment
        score + (if pa ∧ pb then 20 else if pa ∨ pb then 8 else 0)
      else score
  let score :=
    if cfg.varianceMinimization then
      let f := fun (score : ℚ) (t : String) =>
        let mb := min (st.bucketCount t "Early")
          (min (st.bucketCount t "Mid") (st.bucketCount t "Late"))
        if st.bucketCount t slot.bucket = mb then score + 2 else score
      f (f score a) b
    else score
  let score :=
    if cfg.balanceWeekdays then
      let dow := slot.startDay % 7
      score - (st.weekdayCount a dow : ℚ) * (1 / 2) - (st.weekdayCount b dow : ℚ) * (1 / 2)
    else score
  let score :=
    if cfg.balanceHomeAway then
      score - |(st.homeCount a : ℚ) - (st.homeCount b : ℚ)| * (1 / 5)
    else score
  let key := if a < b then (a, b) else (b, a)
  if tableHasKey st.pairRemaining key then
    score + (tableGet st.pairRemaining key : ℚ) * (1 / 10)
  else score

/-- pick from build_schedule: best strictly-greater score wins, first
candidate at equal score is kept (best_score starts at -1e18). -/
def heurPick (cfg : HeurCfg) (teamDiv : String → String) (st : HeurState) (slot : PSlot)
    (relax : Bool) (cands : List (String × String)) : Option (String × String) :=
  (cands.foldl (fun acc ab =>
    if pickOk cfg teamDiv st slot relax ab.1 ab.2 then
      let score := pickScore st cfg slot relax ab.1 ab.2
      if acc.2 < score then (some ab, score) else acc
    else acc) ((none : Option (String × String)), -(10 ^ 18 : ℚ))).1

/-- bucket_count[t][k] += 1 or weekday_count[t][d] += 1. -/
def bump2 {γ : Type} [DecidableEq γ] (f : String → γ → Nat) (t : String) (k : γ) :
    String → γ → Nat :=
  fun x y => if x = t ∧ y = k then f x y + 1 else f x y

/-- seg_div_remaining[seg][div] = max(0, v - 1). -/
def decSegDiv (f : Nat → String → Nat) (seg : Nat) (d : String) : Nat → String → Nat :=
  fun x y => if x = seg ∧ y = d then f x y - 1 else f x y

/-- The body of the heuristic for-slot loop of build_schedule: pick
without relaxation; on failure, relax only under coverage pressure
(more appearances still needed in the block than the remaining slots
can hold); commit the picked pair and update every counter.  Every
shuffle call consumes one pairShuffle index.  games_per_week is
len(teams) // 2; a picked pair implies at least two teams, so the
Python ZeroDivisionError for fewer than two teams is unreachable. -/
def heurSlot (cfg : HeurCfg) (teamDiv : String → String)
    (pairShuffle : Nat → List (String × String) → List (String × String))
    (st : HeurState) (slot : PSlot) : HeurState :=
  let seg := slot.segment
  let slot_div := slot.assignedDivision
  let cand1 := pairShuffle st.shuffleIdx (pairsPositive st.pairRemaining)
  let st := { st with shuffleIdx := st.shuffleIdx + 1 }
  let picked := heurPick cfg teamDiv st slot false cand1
  let stPicked :=
    match picked with
    | some p => (st, some p)
    | none =>
        if slot_div ≠ "All" then
          let div_team_total := (cfg.teamKeys.filter (fun t => teamDiv t = slot_div)).length
          let seen := ((st.playedInSegment seg).filter (fun t => teamDiv t = slot_div)).length
          let needed := div_team_total - seen
          let possible_left := st.segDivRemaining seg slot_div * 2
          if possible_left < needed then
            let cand2 := pairShuffle st.shuffleIdx (pairsPositive st.pairRemaining)
            let st := { st with shuffleIdx := st.shuffleIdx + 1 }
            (st, heurPick cfg teamDiv st slot true cand2)
          else (st, none)
        else (st, none)
  let st := stPicked.1
  match stPicked.2 with
  | none => st
  | some (a, b) =>
      let ha := choose_home_away a b st.homeCount
      let home := ha.1
      let away := ha.2
      let games_per_week := cfg.teamNames.length / 2
      let week_number := st.games.length / games_per_week + 1
      let g := mkGameFromSlot slot (denormDiv (teamDiv home)) home away (some week_number)
      let key := if a < b then (a, b) else (b, a)
      { games := st.games ++ [g],
        lastGameTime := updf (updf st.lastGameTime a (some (slot.startDay, slot.startMin)))
          b (some (slot.startDay, slot.startMin)),
        oppLastWeek := updf (updf st.oppLastWeek a (some b)) b (some a),
        homeCount := bumpTeam st.homeCount home,
        bucketCount := bump2 (bump2 st.bucketCount a slot.bucket) b slot.bucket,
        weekdayCount := bump2 (bump2 st.weekdayCount a (slot.startDay % 7)) b
          (slot.startDay % 7),
        playedInSegment := addTeamSeg (addTeamSeg st.playedInSegment seg a) seg b,
        teamGameCount := bumpTeam (bumpTeam st.teamGameCount a) b,
        pairRemaining :=
          if 0 < tableGet st.pairRemaining key then
            tableSet st.pairRemaining key (tableGet st.pairRemaining key - 1)
          else st.pairRemaining,
        segDivRemaining :=
          if slot_div ≠ "All" then decSegDiv st.segDivRemaining seg slot_div
          else st.segDivRemaining,
        shuffleIdx := st.shuffleIdx }

/- ------------------- force fill ------------------- -/

/-- The state threaded through _force_fill_remaining. -/
structure ForceState where
  games : List Game
  teamGameCount : String → Nat
  homeCount : String → Nat
  playedInSegment : Nat → List String

/-- Stable insertion by current game count (candidates.sort
key=team_game_count). -/
def insertByCount (cnt : String → Nat) (t : String) : List String → List String
  | [] => [t]
  | x :: xs => if cnt t < cnt x then t :: x :: xs else x :: insertByCount cnt t xs

def sortByCount (cnt : String → Nat) (l : List String) : List String :=
  l.foldr (insertByCount cnt) []

/-- The candidate list of a leftover slot: teams of the slot division
(or all teams for "All") that are below the cap and have not played
in the slot segment. -/
def forceCandidates (gamesPerTeam : Nat) (teamKeys : List String)
    (teamDiv : String → String) (st : ForceState) (s : PSlot) : List String :=
  if s.assignedDivision = "All" then
    teamKeys.filter (fun t =>
      st.teamGameCount t < gamesPerTeam ∧ t ∉ st.playedInSegment s.segment)
  else
    teamKeys.filter (fun t =>
      teamDiv t = s.assignedDivision ∧ st.teamGameCount t < gamesPerTeam ∧
        t ∉ st.playedInSegment s.segment)

/-- Committing the pair (a, b) into a leftover slot. -/
def forceCommit (teamDiv : String → String) (st : ForceState) (s : PSlot)
    (a b : String) : ForceState :=
  { games := st.games ++
      [mkGameFromSlot s (denormDiv (teamDiv (choose_home_away a b st.homeCount).1))
        (choose_home_away a b st.homeCount).1 (choose_home_away a b st.homeCount).2 none],
    teamGameCount := bumpTeam (bumpTeam st.teamGameCount a) b,
    homeCount := bumpTeam st.homeCount (choose_home_away a b st.homeCount).1,
    playedInSegment :=
      addTeamSeg (addTeamSeg st.playedInSegment s.segment a) s.segment b }

/-- The per-slot body of _force_fill_remaining: the nested pair loop has
no rejection test, so it always commits the first two candidates after
the sort by game count. -/
def forceFillSlot (gamesPerTeam : Nat) (teamKeys : List String)
    (teamDiv : String → String) (st : ForceState) (s : PSlot) : ForceState :=
  if (forceCandidates gamesPerTeam teamKeys teamDiv st s).length < 2 then st
  else
    match sortByCount st.teamGameCount (forceCandidates gamesPerTeam teamKeys teamDiv st s) with
    | a :: b :: _ => forceCommit teamDiv st s a b
    | _ => st

/-- _force_fill_remaining from enhanced_scheduler.py: earliest leftover
slots first. -/
def force_fill_remaining (gamesPerTeam : Nat) (teamKeys : List String)
    (teamDiv : String → String) (remaining : List PSlot) (games : List Game)
    (teamGameCount homeCount : String → Nat) (played : Nat → List String) : ForceState :=
  (sortSlotsByStart remaining).foldl (forceFillSlot gamesPerTeam teamKeys teamDiv)
    ⟨games, teamGameCount, homeCount, played⟩

/- ------------------- aggressive final fill and validators ------------------- -/

/-- _can_swap_team from enhanced_scheduler.py: the replacement team must
not already play on the date of the game, and the resulting matchup
must not already exist elsewhere. -/
def can_swap_team (game : Game) (oldTeam newTeam : String) (allGames : List Game) : Bool :=
  (allGames.all (fun og =>
    if og = game then true
    else if og.date = game.date then decide (¬ (og.home = newTeam ∨ og.away = newTeam))
    else true)) &&
  (let otherTeam := if game.home = oldTeam then game.away else game.home
   allGames.all (fun og =>
     if og = game then true
     else decide (¬ ((og.home = newTeam ∧ og.away = otherTeam) ∨
       (og.away = newTeam ∧ og.home = otherTeam)))))

/-- The inner game scan of _aggressive_final_fill.  The elif arm is
skipped when the home side matches an over-cap team but the swap check
fails, exactly as in the source. -/
def aggScanGo (over : List String) (under : String) (allGames : List Game) :
    List Game → Nat → Option (Nat × Bool)
  | [], _ => none
  | g :: rest, i =>
      if g.home ∈ over ∧ g.away ≠ under then
        if can_swap_team g g.home under allGames then some (i, true)
        else aggScanGo over under allGames rest (i + 1)
      else if g.away ∈ over ∧ g.home ≠ under then
        if can_swap_team g g.away under allGames then some (i, false)
        else aggScanGo over under allGames rest (i + 1)
      else aggScanGo over under allGames rest (i + 1)

/-- The range(needed) loop of _aggressive_final_fill for one under-cap
team; the for-else break ends it as soon as no swap is found. -/
def aggNeeded (over : List String) (under : String) :
    Nat → List Game × (String → Nat) → List Game × (String → Nat)
  | 0, st => st
  | n + 1, (games, cnt) =>
      match aggScanGo over under games games 0 with
      | none => (games, cnt)
      | some (i, isHome) =>
          let g := games.getD i default
          let old := if isHome then g.home else g.away
          let games1 := games.set i
            (if isHome then { g with home := under } else { g with away := under })
          let cnt1 := bumpTeam (updf cnt old (cnt old - 1)) under
          aggNeeded over under n (games1, cnt1)

/-- _aggressive_final_fill from enhanced_scheduler.py.  over/under team
lists are computed once at entry; needed is re-read per team from the
mutated counter. -/
def aggressive_final_fill (gamesPerTeam : Nat) (teamKeys : List String)
    (games : List Game) (cnt : String → Nat) : List Game × (String → Nat) :=
  let under_teams := teamKeys.filter (fun t => cnt t < gamesPerTeam)
  let over_teams := teamKeys.filter (fun t => gamesPerTeam < cnt t)
  if under_teams = [] then (games, cnt)
  else under_teams.foldl (fun st u =>
    aggNeeded over_teams u (gamesPerTeam - st.2 u) st) (games, cnt)

/-- set.add on a duplicate-free list. -/
def setAddStr (l : List String) (t : String) : List String :=
  if t ∈ l then l else l ++ [t]

/-- divteams[d].add(home); divteams[d].add(away). -/
def assocSetAdd2 : List (String × List String) → String → String → String →
    List (String × List String)
  | [], d, h, a => [(d, setAddStr (setAddStr [] h) a)]
  | (k, l) :: rest, d, h, a =>
      if k = d then (k, setAddStr (setAddStr l h) a) :: rest
      else (k, l) :: assocSetAdd2 rest d h a

/-- seg_to_games grouping of _validate_full_blocks, keyed through
slot_by_id; none models the KeyError for a game with an unknown slot
id (slot ids are unique by construction, so first match = the dict
entry). -/
def segGameAppend : List (Nat × List Game) → Nat → Game → List (Nat × List Game)
  | [], seg, g => [(seg, [g])]
  | (k, l) :: rest, seg, g =>
      if seg = k then (k, l ++ [g]) :: rest else (k, l) :: segGameAppend rest seg g

def gamesBySegment (slots : List PSlot) (games : List Game) :
    Option (List (Nat × List Game)) :=
  games.foldl (fun acc g =>
    match acc with
    | none => none
    | some groups =>
        match slots.find? (fun s => s.slotId = g.slotId) with
        | none => none
        | some s => some (segGameAppend groups s.segment g)) (some [])

def insertSegGameGroup (g : Nat × List Game) : List (Nat × List Game) → List (Nat × List Game)
  | [] => [g]
  | x :: xs => if g.1 < x.1 then g :: x :: xs else x :: insertSegGameGroup g xs

def sortSegGameGroups (gs : List (Nat × List Game)) : List (Nat × List Game) :=
  gs.foldr insertSegGameGroup []

/-- Exactly-once check of _validate_full_blocks: no team occurs other
than once among the appearances of the block. -/
def blockOffendersEmpty (glist : List Game) : Bool :=
  let allT := glist.flatMap (fun g => [g.home, g.away])
  (allT.eraseDups).all (fun t => allT.count t = 1)

/-- The per-division coverage check of _validate_full_blocks.  Both
sides key on the display Division of the scheduled rows. -/
def divCoverageOk (blockRecipe : List (String × Nat)) (glist : List Game) : Bool :=
  let divteams := glist.foldl (fun acc g => assocSetAdd2 acc g.division g.home g.away) []
  blockRecipe.all (fun kv =>
    let haveTeams := (lookupAssoc divteams kv.1).getD []
    let expected := glist.foldl (fun acc g =>
      if g.division = kv.1 then setAddStr (setAddStr acc g.home) g.away else acc) []
    haveTeams.length = expected.length)

/-- One block of _validate_full_blocks: blocks whose game count is not
exactly the block size are skipped. -/
def checkBlock (blockRecipe : List (String × Nat)) (blockSize : Nat)
    (glist : List Game) : Bool :=
  if glist.length ≠ blockSize then true
  else blockOffendersEmpty glist ∧ divCoverageOk blockRecipe glist

/-- _validate_full_blocks from enhanced_scheduler.py; none models the
raised ValueError. -/
def validate_full_blocks (blockStrictOnce : Bool) (blockRecipe : List (String × Nat))
    (blockSize : Nat) (slots : List PSlot) (games : List Game) : Option Unit :=
  if ¬ (blockStrictOnce ∧ blockRecipe ≠ [] ∧ blockSize ≠ 0) then some ()
  else
    match gamesBySegment slots games with
    | none => none
    | some groups =>
        if (sortSegGameGroups groups).all (fun sg => checkBlock blockRecipe blockSize sg.2)
        then some () else none

/-- The inner game scan of _fix_game_count_imbalances (same elif shape
as the aggressive scan, but for one specific over-cap team). -/
def fixScanGo (allGames : List Game) (overT underT : String) :
    List Game → Nat → Option (Nat × Bool)
  | [], _ => none
  | g :: rest, i =>
      if g.home = overT ∧ g.away ≠ underT then
        if can_swap_team g overT underT allGames then some (i, true)
        else fixScanGo allGames overT underT rest (i + 1)
      else if g.away = overT ∧ g.home ≠ underT then
        if can_swap_team g overT underT allGames then some (i, false)
        else fixScanGo allGames overT underT rest (i + 1)
      else fixScanGo allGames overT underT rest (i + 1)

def fixFindSwapU (games : List Game) (overT : String) :
    List String → Option (Nat × Bool × String)
  | [] => none
  | u :: us =>
      match fixScanGo games overT u games 0 with
      | some ih => some (ih.1, ih.2, u)
      | none => fixFindSwapU games overT us

def fixFindSwap (games : List Game) :
    List String → List String → Option (Nat × Bool × String)
  | [], _ => none
  | o :: os, unders =>
      match fixFindSwapU games o unders with
      | some r => some r
      | none => fixFindSwap games os unders

/-- _fix_game_count_imbalances from enhanced_scheduler.py: performs at
most one team substitution and returns. -/
def fix_game_count_imbalances (gamesPerTeam : Nat) (games : List Game)
    (actualKeys : List String) (actual : String → Nat) : List Game :=
  let over_teams := actualKeys.filter (fun t => gamesPerTeam < actual t)
  let under_teams := actualKeys.filter (fun t => actual t < gamesPerTeam)
  if over_teams = [] ∨ under_teams = [] then games
  else
    match fixFindSwap games over_teams under_teams with
    | none => games
    | some (i, isHome, u) =>
        let g := games.getD i default
        games.set i (if isHome then { g with home := u } else { g with away := u })

/-- _validate_game_counts from enhanced_scheduler.py: recount from the
assigned games; on any mismatch attempt one repair swap. -/
def validate_game_counts (gamesPerTeam : Nat) (games : List Game) : List Game :=
  let actualKeys := (games.flatMap (fun g => [g.home, g.away])).eraseDups
  let actual := fun t => (games.flatMap (fun g => [g.home, g.away])).count t
  if actualKeys.all (fun t => actual t = gamesPerTeam) then games
  else fix_game_count_imbalances gamesPerTeam games actualKeys actual

/- ------------------- dynamic defaults and recipe derivation ------------------- -/

/-- Dict assignment on a Nat-valued association list. -/
def assocSetNat : List (String × Nat) → String → Nat → List (String × Nat)
  | [], k, v => [(k, v)]
  | kv :: rest, k, v => if kv.1 = k then (k, v) :: rest else kv :: assocSetNat rest k v

/-- Counter(self.team_div.values()) with the "unknown" key deleted. -/
def divCounts (teamKeys : List String) (teamDiv : String → String) :
    List (String × Nat) :=
  (teamKeys.foldl (fun acc t =>
    let d := teamDiv t
    match lookupAssoc acc d with
    | some v => assocSetNat acc d (v + 1)
    | none => acc ++ [(d, 1)]) []).filter (fun kv => kv.1 ≠ "unknown")

/-- Python round (banker's rounding), on exact rationals standing for
the float value. -/
def roundHalfEven (v : ℚ) : Int :=
  let fl := ⌊v⌋
  let frac := v - fl
  if frac < 1 / 2 then fl
  else if 1 / 2 < frac then fl + 1
  else if fl % 2 = 0 then fl else fl + 1

/-- max(scaled.keys(), key=counts[x]): first key attaining the maximal
team count. -/
def argmaxByCounts (counts : List (String × Nat)) : List String → String
  | [] => ""
  | k :: ks => ks.foldl (fun best x =>
      if (lookupAssoc counts best).getD 0 < (lookupAssoc counts x).getD 0 then x
      else best) k

/-- scaled[largest] = max(1, v - 1). -/
def decKeyFloor : List (String × Nat) → String → List (String × Nat)
  | [], _ => []
  | (k, v) :: rest, d =>
      if k = d then (k, max 1 (v - 1)) :: rest else (k, v) :: decKeyFloor rest d

/-- The while loop of the recipe derivation that nudges the scaled
counts until they sum to the block size, fueled (Python can loop
forever here when every count is pinned at 1). -/
def adjustScaled (counts : List (String × Nat)) (bs : Nat) :
    Nat → List (String × Nat) → List (String × Nat)
  | 0, scaled => scaled
  | fuel + 1, scaled =>
      let s := (scaled.map (·.2)).sum
      if s = bs then scaled
      else
        let largest := argmaxByCounts counts (scaled.map (·.1))
        if s < bs then adjustScaled counts bs fuel (incKeyList scaled largest)
        else adjustScaled counts bs fuel (decKeyFloor scaled largest)

/-- The default block-recipe derivation in build_schedule: one half
round per division, proportionally rescaled to the block size when the
sums differ. -/
def deriveRecipe (blockSize : Nat) (counts : List (String × Nat)) :
    List (String × Nat) :=
  let derived := (counts.filter (fun kv => 0 < kv.2)).map
    (fun kv => (kv.1, max 1 (kv.2 / 2)))
  let total := (derived.map (·.2)).sum
  if total = 0 then []
  else if total ≠ blockSize then
    let scaled := derived.map (fun kv =>
      (kv.1, max 1 (roundHalfEven ((kv.2 : ℚ) * blockSize / total)).toNat))
    adjustScaled counts blockSize (((scaled.map (·.2)).sum) + blockSize + 1) scaled
  else derived

/-- Dict-update normalization of the raw blockRecipe:
{normDiv(k): int(v)} in insertion order, later keys overwriting. -/
def normalizeRecipe (raw : List (String × Nat)) : List (String × Nat) :=
  raw.foldl (fun acc kv => assocSetNat acc (normDiv kv.1) kv.2) []

/- ------------------- build_schedule and generate ------------------- -/

/-- build_schedule from enhanced_scheduler.py, starting from structured
slot and team inputs (the per-slot ISO parsing with its per-slot
exception swallowing is caller-side preprocessing).  none models the
uncaught raises of the pipeline (segmentation, strict filler and full
block validation) and the ZeroDivisionError of a zero dynamic-default
divisor. -/
def build_schedule (oracle : ShuffleOracle) (params : EParams)
    (slots : List RawSlot) (teams : List TeamRec) : Option (List Game) := do
  let team_names := teams.map (·.name)
  let teamKeys := team_names.eraseDups
  let team_count := team_names.length
  let games_per_team :=
    match params.gamesPerTeam with
    | some g => g
    | none => team_count - 1
  let dynParam := fun (v : Option Nat) (lo hi divisor : Nat) =>
    match v with
    | some x => some x
    | none => if divisor = 0 then none else some (max lo (min hi (team_count / divisor)))
  let target_gap ← dynParam params.idealGapDays 5 10 params.gapDivisor
  let min_rest ← dynParam params.minRestDays 2 4 params.restDivisor
  let max_idle ← dynParam params.maxGapDays 8 16 params.idleDivisor
  let teamDiv : String → String := fun name =>
    match (teams.reverse).find? (fun t => t.name = name) with
    | some t => if t.division = "" then "unknown" else normDiv t.division
    | none => "unknown"
  let block_size :=
    match params.blockSize with
    | some b => b
    | none => team_count / 2
  let recipe0 := normalizeRecipe params.blockRecipe
  let block_recipe :=
    if recipe0 = [] ∧ block_size ≠ 0 then
      deriveRecipe block_size (divCounts teamKeys teamDiv)
    else recipe0
  let processed := slots.mapIdx (fun i sl =>
    ({ slotId := i + 1, startDay := sl.startDay, startMin := sl.startMin,
       endDay := sl.endDay, endMin := sl.endMin, rink := sl.resource,
       bucket := classify_bucket sl.startMin params.earlyEnd params.midEnd,
       segment := 0, assignedDivision := "All" } : PSlot))
  if processed = [] then
    return []
  else
    let processed ← segment_and_assign_divisions block_size block_recipe
      (sortSlotsByStart processed)
    let st ← strict_block_fill games_per_team block_size block_recipe
      params.blockStrictOnce oracle.teamShuffle team_names teamKeys teamDiv processed
      (fun _ => 0) (fun _ => 0)
    let remaining := processed.filter (fun s => ¬ st.usedSlotIds.contains s.slotId)
    let pair_remaining := build_pair_quota teamDiv games_per_team team_names
    let segDiv0 : Nat → String → Nat := fun seg d =>
      if d = "All" then 0
      else (remaining.filter (fun s => s.segment = seg ∧ s.assignedDivision = d)).length
    let cfg : HeurCfg := ⟨games_per_team, target_gap, min_rest, max_idle,
      params.noBackToBack, params.homeAwayBalance, params.weekdayBalance,
      params.varianceMinimization, params.noInterdivision, team_names, teamKeys⟩
    let h0 : HeurState := ⟨st.games, fun _ => none, fun _ => none, st.homeCount,
      fun _ _ => 0, fun _ _ => 0, st.playedInSegment, st.teamGameCount,
      pair_remaining, segDiv0, 0⟩
    let h1 := remaining.foldl (heurSlot cfg teamDiv oracle.pairShuffle) h0
    let usedIds := h1.games.map (·.slotId)
    let fstate :=
      if processed.any (fun s => ¬ usedIds.contains s.slotId) then
        force_fill_remaining games_per_team teamKeys teamDiv
          (processed.filter (fun s => ¬ usedIds.contains s.slotId))
          h1.games h1.teamGameCount h1.homeCount h1.playedInSegment
      else ⟨h1.games, h1.teamGameCount, h1.homeCount, h1.playedInSegment⟩
    let agg := aggressive_final_fill games_per_team teamKeys fstate.games
      fstate.teamGameCount
    let _ ← validate_full_blocks params.blockStrictOnce block_recipe block_size
      processed agg.1
    return validate_game_counts games_per_team agg.1

/-- Chronological sort of the final schedule (the sort key re-parses
the Date and Start strings; on well-formed rows that is the (day,
minute) order). -/
def insertGameChrono (g : Game) : List Game → List Game
  | [] => [g]
  | x :: xs =>
      if g.date * 1440 + g.startMin < x.date * 1440 + x.startMin then g :: x :: xs
      else x :: insertGameChrono g xs

def sortGamesChrono (games : List Game) : List Game :=
  games.foldr insertGameChrono []

/-- One entry of the team KPI dict of generate_enhanced_schedule. -/
structure TeamKpi where
  games : Nat
  home : Nat
  away : Nat
  avgGap : ℚ
deriving DecidableEq, Repr

/-- Date-only stable sort used by the KPI loop (tg.sort key=Date). -/
def insertGameByDate (g : Game) : List Game → List Game
  | [] => [g]
  | x :: xs => if g.date < x.date then g :: x :: xs else x :: insertGameByDate g xs

def sortGamesByDate (games : List Game) : List Game :=
  games.foldr insertGameByDate []

def consecDayGaps : List Game → List Int
  | a :: b :: rest => ((b.date : Int) - a.date) :: consecDayGaps (b :: rest)
  | _ => []

/-- round(x, 2) on the exact rational standing for the float mean. -/
def roundQ2 (v : ℚ) : ℚ :=
  (roundHalfEven (v * 100) : ℚ) / 100

/-- The KPI loop of generate_enhanced_schedule (np.mean as the exact
rational mean). -/
def teamKpis (team_names : List String) (schedule : List Game) :
    List (String × TeamKpi) :=
  team_names.filterMap (fun name =>
    let tg := schedule.filter (fun g => g.home = name ∨ g.away = name)
    if tg = [] then none
    else
      let tg := sortGamesByDate tg
      let gaps := consecDayGaps tg
      let avg : ℚ := if gaps = [] then 0 else (gaps.map (fun z => (z : ℚ))).sum / gaps.length
      some (name, ⟨tg.length,
        (tg.filter (fun g => g.home = name)).length,
        (tg.filter (fun g => g.away = name)).length,
        roundQ2 avg⟩))

/-- generate_enhanced_schedule from enhanced_scheduler.py.
EnhancedScheduler.__init__ calls random.seed(params.seed), replacing
the global RNG state that existed before the call, so externalRngState
is discarded; randomModule maps a seed to the shuffle behavior of the
seeded module.  none models the IndexError of the summary print on an
empty schedule. -/
def generate_enhanced_schedule (randomModule : Nat → ShuffleOracle)
    (externalRngState : Nat) (slots : List RawSlot) (teams : List TeamRec)
    (params : EParams) : Option (List Game × List (String × TeamKpi)) :=
  let oracle := randomModule params.seed
  match build_schedule oracle params slots teams with
  | none => none
  | some sched =>
      let schedule := sortGamesChrono sched
      if schedule = [] then none
      else some (schedule, teamKpis (teams.map (·.name)) schedule)

/- ------------------- concrete inputs for C1 and C8 ------------------- -/

/-- C1 failing input: two teams in one division, games_per_team 1,
block size 1, recipe one div2 slot per block, two slots a week
apart. -/
def c1teams : List TeamRec := [⟨"A", "2"⟩, ⟨"B", "2"⟩]

def c1slots : List RawSlot := [⟨0, 600, 0, 680, "R1"⟩, ⟨7, 600, 7, 680, "R1"⟩]

def c1params : EParams :=
  { gamesPerTeam := some 1, idealGapDays := some 7, minRestDays := some 1,
    maxGapDays := some 10, noBackToBack := true, homeAwayBalance := true,
    weekdayBalance := true, varianceMinimization := true, noInterdivision := false,
    blockSize := some 1, blockRecipe := [("2", 1)], blockStrictOnce := true,
    earlyEnd := 1321, midEnd := 1351, seed := 42, gapDivisor := 3, restDivisor := 8,
    idleDivisor := 2 }

/-- Identity-shuffle oracle.  On the C1 input every shuffled list has at
most one element, so every permutation-valued oracle acts like this
one; the reversing oracle below witnesses that independence. -/
def c1oracle : ShuffleOracle := ⟨fun l => l, fun _ l => l⟩

def c1oracleRev : ShuffleOracle := ⟨List.reverse, fun _ l => l.reverse⟩

/-- The preprocessed C1 slots before segmentation. -/
def c1processed0 : List PSlot :=
  [⟨1, 0, 600, 0, 680, "R1", "Early", 0, "All"⟩,
   ⟨2, 7, 600, 7, 680, "R1", "Early", 0, "All"⟩]

def c1slotA : PSlot := ⟨1, 0, 600, 0, 680, "R1", "Early", 0, "div2"⟩
def c1slotB : PSlot := ⟨2, 7, 600, 7, 680, "R1", "Early", 1, "div2"⟩

/-- The single game build_schedule returns on the C1 input. -/
def c1game : Game := ⟨0, 600, 680, "R1", "div2", "A", "B", "Early", 0, 0, 1, none⟩

/-- C8 input: three slots with block size 2, so the third slot is a
partial tail block. -/
def c8slots : List PSlot :=
  [⟨1, 0, 600, 0, 660, "R", "Early", 0, "All"⟩,
   ⟨2, 1, 600, 1, 660, "R", "Early", 0, "All"⟩,
   ⟨3, 2, 600, 2, 660, "R", "Early", 0, "All"⟩]

/-- Specification-side count for the once-per-block property: the
appearances of team t among the games placed in segment seg, where
segOf maps a slot id to its segment (in build_schedule this is the
slot_seg index over the processed slots). -/
def segAppearances (segOf : Nat → Nat) (games : List Game) (seg : Nat) (t : String) : Nat :=
  ((games.filter (fun g => segOf g.slotId = seg)).flatMap (fun g => [g.home, g.away])).count t

/- ===================================================================
   THEOREMS
   =================================================================== -/

/-- C2 counterexample: with early_end = 22:01 (1321 min) and
mid_end = 22:31 (1351 min), a slot ending exactly at early_end is
classified Early by eml_category and classify_slot_time, although
t < early_end fails; the claim says such a slot is classified Mid.
(_classify_eml, with strict bounds, does return Mid there.) -/
theorem eml_inclusive_at_threshold :
    eml_category 1321 1321 1351 = EMLCategory.EARLY ∧
    eml_category 1321 1321 1351 ≠ EMLCategory.MID ∧
    classify_slot_time 1321 1321 1351 = "Early" ∧
    classify_slot_time 1321 1321 1351 ≠ "Mid" ∧
    ¬ (1321 < 1321) := by
  refine ⟨rfl, ?_, rfl, ?_, by omega⟩ <;> decide

/-- C2 amended: eml_category and classify_slot_time treat the thresholds
as INCLUSIVE upper bounds (Early iff t ≤ early_end; Mid iff
early_end < t ≤ mid_end; Late otherwise), while _classify_eml treats
them as exclusive upper bounds exactly as the claim states
(Early iff t < early_end; Mid iff early_end ≤ t < mid_end). -/
theorem eml_threshold_semantics (t e m : Nat) :
    (eml_category t e m = EMLCategory.EARLY ↔ t ≤ e) ∧
    (eml_category t e m = EMLCategory.MID ↔ ¬ t ≤ e ∧ t ≤ m) ∧
    (eml_category t e m = EMLCategory.LATE ↔ ¬ t ≤ e ∧ ¬ t ≤ m) ∧
    (classify_slot_time t e m = "Early" ↔ t ≤ e) ∧
    (classify_slot_time t e m = "Mid" ↔ ¬ t ≤ e ∧ t ≤ m) ∧
    (classify_slot_time t e m = "Late" ↔ ¬ t ≤ e ∧ ¬ t ≤ m) ∧
    (classify_eml t e m = "E" ↔ t < e) ∧
    (classify_eml t e m = "M" ↔ ¬ t < e ∧ t < m) ∧
    (classify_eml t e m = "L" ↔ ¬ t < e ∧ ¬ t < m) := by
  unfold eml_category classify_slot_time classify_eml
  refine ⟨?_, ?_, ?_, ?_, ?_, ?_, ?_, ?_, ?_⟩ <;>
    split <;> simp_all <;> (try split) <;> simp_all

/-- C3: on four teams {A,B,C,D} in one division with games_per_team = 4,
_build_pair_quota computes base = 16 / 12 = 1 and a residual of
extra = 16 − 12 = 4 measured in team appearances, but then adds 4 whole
GAMES, so the quotas sum to 10, not ⌈4·4/2⌉ = 8, and team A is allotted
6 games, not 4.  The code contradicts its own in-function validation,
which expects 2 · (sum of quotas) = n · K (20 ≠ 16 here). -/
theorem build_pair_quota_overallocates :
    ((build_pair_quota c3TeamDiv 4 ["A", "B", "C", "D"]).map (·.2)).sum = 10 ∧
    (10 : Nat) ≠ (4 * 4 + 1) / 2 ∧
    10 * 2 ≠ 4 * 4 ∧
    pairTableTeamTotal (build_pair_quota c3TeamDiv 4 ["A", "B", "C", "D"]) "A" = 6 := by
  exact ⟨by decide, by decide, by decide, by decide⟩

/-- Helper (C10): teams of a reversed matchup. -/
theorem teams_matchupRev (t : String) (m : EngineMatchup) :
    (t = (matchupRev m).home ∨ t = (matchupRev m).away) ↔ (t = m.home ∨ t = m.away) := by
  simp [matchupRev, or_comm]

/-- Helper (C10): reversing does not change appearance counts. -/
theorem appearances_matchupRev (t : String) (m : EngineMatchup) :
    appearancesIn t (matchupRev m) = appearancesIn t m := by
  simp [appearancesIn, matchupRev, Nat.add_comm]

/-- Helper (C10): iterated reversing does not change appearance counts. -/
theorem appearances_revIter (t : String) (j : Nat) (m : EngineMatchup) :
    appearancesIn t (revIter j m) = appearancesIn t m := by
  induction j with
  | zero => rfl
  | succ j ih =>
      unfold revIter at ih ⊢
      rw [Function.iterate_succ_apply', appearances_matchupRev, ih]

/-- Helper (C10): teams of an iterated reversal. -/
theorem teams_revIter (t : String) (j : Nat) (m : EngineMatchup) :
    (t = (revIter j m).home ∨ t = (revIter j m).away) ↔ (t = m.home ∨ t = m.away) := by
  induction j with
  | zero => rfl
  | succ j ih =>
      unfold revIter at ih ⊢
      rw [Function.iterate_succ_apply', teams_matchupRev, ih]

/-- Helper (C10): appearance counts add over pool concatenation. -/
theorem poolCount_append (l1 l2 : List EngineMatchup) (t : String) :
    poolCount (l1 ++ l2) t = poolCount l1 t + poolCount l2 t := by
  simp [poolCount]

/-- Helper (C10): membership in the team set of a pool. -/
theorem mem_poolTeams (t : String) (l : List EngineMatchup) :
    t ∈ poolTeams l ↔ ∃ m ∈ l, t = m.home ∨ t = m.away := by
  simp only [poolTeams, List.mem_flatMap, List.mem_cons, List.mem_singleton,
    List.not_mem_nil, or_false]

/-- Helper (C10): a counted team has at least one appearance. -/
theorem one_le_poolCount (t : String) (l : List EngineMatchup)
    (hm : t ∈ poolTeams l) : 1 ≤ poolCount l t := by
  rw [mem_poolTeams] at hm
  obtain ⟨m, hml, hteam⟩ := hm
  have h1 : 1 ≤ appearancesIn t m := by
    unfold appearancesIn
    rcases hteam with h | h <;> subst h <;> simp
  calc 1 ≤ appearancesIn t m := h1
    _ ≤ (l.map (appearancesIn t)).sum :=
        List.single_le_sum (fun x _ => Nat.zero_le x) _
          (List.mem_map_of_mem (appearancesIn t) hml)

/-- Helper (C10): closed form of the loop state after n iterations.
The pool grows by one reversed duplicate per iteration; the element
processed at iteration k is procElem p0 k. -/
theorem pool_fitIter (p0 : List EngineMatchup) (h : p0 ≠ []) (n : Nat) :
    fitStep^[n] (p0, 0) =
      (p0 ++ (List.range n).map (fun k => matchupRev (procElem p0 k)), n) := by
  have hL0 : 0 < p0.length := List.length_pos.mpr h
  induction n with
  | zero => simp
  | succ n ih =>
      rw [Function.iterate_succ_apply', ih]
      have hlen : (p0 ++ (List.range n).map (fun k => matchupRev (procElem p0 k))).length
          = p0.length + n := by simp
      have hmod : n % (p0.length + n) = n := Nat.mod_eq_of_lt (by omega)
      have helem : (p0 ++ (List.range n).map (fun k => matchupRev (procElem p0 k))).getD
          n default = procElem p0 n := by
        by_cases hn : n < p0.length
        · rw [List.getD_append _ _ _ _ hn]
          unfold procElem revIter
          rw [Nat.div_eq_of_lt hn, Nat.mod_eq_of_lt hn]
          rfl
        · push_neg at hn
          rw [List.getD_append_right _ _ _ _ hn]
          have hlt : n - p0.length < n := by omega
          rw [List.getD_eq_getElem?_getD, List.getElem?_map, List.getElem?_range hlt]
          show matchupRev (procElem p0 (n - p0.length)) = procElem p0 n
          unfold procElem
          rw [Nat.div_eq_sub_div hL0 hn, Nat.mod_eq_sub_mod hn]
          unfold revIter
          rw [Function.iterate_succ_apply']
      simp only [fitStep, hlen, hmod, helem]
      rw [List.range_succ, List.map_append]
      simp [List.append_assoc]

/-- Helper (C10): summing a pattern of period L over range (L * K). -/
theorem sum_range_mul_mod (L K : Nat) (f : Nat → Nat) :
    ((List.range (L * K)).map (fun k => f (k % L))).sum
      = K * ((List.range L).map (fun k => f (k % L))).sum := by
  induction K with
  | zero => simp
  | succ K ih =>
      have hmul : L * (K + 1) = L * K + L := by ring
      rw [hmul, List.range_add, List.map_append, List.sum_append, ih]
      have hshift : (List.map (fun x => L * K + x) (List.range L)).map (fun k => f (k % L))
          = (List.range L).map (fun k => f (k % L)) := by
        rw [List.map_map]
        apply List.map_congr_left
        intro x _
        simp only [Function.comp_apply]
        rw [Nat.mul_add_mod]
      rw [hshift]
      ring

/-- Helper (C10): a map-sum over positions equals the direct map-sum. -/
theorem sum_range_getD (f : EngineMatchup → Nat) (l : List EngineMatchup) :
    ((List.range l.length).map (fun k => f (l.getD k default))).sum = (l.map f).sum := by
  induction l with
  | nil => simp
  | cons x xs ih =>
      rw [List.length_cons, List.range_succ_eq_map]
      simp only [List.map_cons, List.map_map, List.sum_cons, List.getD_cons_zero]
      have hcomp : ((fun k => f ((x :: xs).getD k default)) ∘ Nat.succ)
          = fun k => f (xs.getD k default) := by
        funext k
        simp [List.getD_cons_succ]
      rw [hcomp, ih]

/-- C10: the while loop of _fit_games_per_team terminates.  Starting
from any finite non-empty pool and target K, after len(pool) * K
iterations of the loop body the loop condition is false: every counted
team has at least K appearances (in fact the final count of each team
is (K + 1) times its count in the original pool). -/
theorem fit_games_per_team_terminates (p0 : List EngineMatchup) (K : Nat) (h : p0 ≠ []) :
    fitDone K ((fitStep^[p0.length * K] (p0, 0)).1) := by
  have hL0 : 0 < p0.length := List.length_pos.mpr h
  rw [pool_fitIter p0 h]
  intro t ht
  have htp : t ∈ poolTeams p0 := by
    rw [mem_poolTeams] at ht ⊢
    obtain ⟨m, hm, hteam⟩ := ht
    rcases List.mem_append.mp hm with hm | hm
    · exact ⟨m, hm, hteam⟩
    · obtain ⟨k, _, rfl⟩ := List.mem_map.mp hm
      have hk' : k % p0.length < p0.length := Nat.mod_lt _ hL0
      refine ⟨p0.getD (k % p0.length) default, ?_, ?_⟩
      · rw [List.getD_eq_getElem _ _ hk']
        exact List.getElem_mem hk'
      · rw [teams_matchupRev] at hteam
        unfold procElem at hteam
        rwa [teams_revIter] at hteam
  have hcount : poolCount
      (p0 ++ (List.range (p0.length * K)).map (fun k => matchupRev (procElem p0 k))) t
      = (K + 1) * poolCount p0 t := by
    rw [poolCount_append]
    have happ : poolCount
        ((List.range (p0.length * K)).map (fun k => matchupRev (procElem p0 k))) t
        = ((List.range (p0.length * K)).map
            (fun k => appearancesIn t (p0.getD (k % p0.length) default))).sum := by
      unfold poolCount
      rw [List.map_map]
      apply congrArg List.sum
      apply List.map_congr_left
      intro k _
      simp only [Function.comp_apply]
      rw [appearances_matchupRev]
      unfold procElem
      rw [appearances_revIter]
    rw [happ,
      sum_range_mul_mod p0.length K (fun r => appearancesIn t (p0.getD r default))]
    have hbase : ((List.range p0.length).map
        (fun k => appearancesIn t (p0.getD (k % p0.length) default))).sum
        = poolCount p0 t := by
      have he : (List.range p0.length).map
          (fun k => appearancesIn t (p0.getD (k % p0.length) default))
          = (List.range p0.length).map (fun k => appearancesIn t (p0.getD k default)) := by
        apply List.map_congr_left
        intro k hk
        rw [Nat.mod_eq_of_lt (List.mem_range.mp hk)]
      rw [he, sum_range_getD]
      rfl
    rw [hbase]
    ring
  rw [hcount]
  have h1 : 1 ≤ poolCount p0 t := one_le_poolCount t p0 htp
  calc K ≤ (K + 1) * 1 := by omega
    _ ≤ (K + 1) * poolCount p0 t := Nat.mul_le_mul_left _ h1

/-- C10 witness: the termination theorem applied to a concrete one-element
pool with target 1. -/
theorem fit_games_per_team_terminates_witness :
    ([(⟨"d", "A", "B", 1⟩ : EngineMatchup)] ≠ []) ∧
    fitDone 1 ((fitStep^[[(⟨"d", "A", "B", 1⟩ : EngineMatchup)].length * 1]
      ([⟨"d", "A", "B", 1⟩], 0)).1) :=
  ⟨by decide, fit_games_per_team_terminates [⟨"d", "A", "B", 1⟩] 1 (by decide)⟩

/-- C4: on the concrete schedule c4games, team T has consecutive games
on days 10 and 30 (gap 20 > max_gap_days 15).  _find_potential_swaps
enumerates two proposals, with improvements 12 (candidate on day 18)
and 10 (candidate on day 20); both are positive.  The claim and the
comment in the source say the best (greatest-improvement) proposal is
committed, but _fix_team_gap_violation takes
min(potential_swaps, key=improvement) and commits the improvement-10
swap instead of the improvement-12 swap. -/
theorem cap_fix_commits_minimum_improvement :
    get_team_gaps c4games "T" = [10, 20] ∧
    (c4cfg.max_gap_days : Int) < 20 ∧
    find_potential_swaps noHistoryTeams c4cfg c4games "T" c4g1 c4g2 =
      some [⟨c4g2, c4c1, 12, "swap2"⟩, ⟨c4g2, c4c2, 10, "swap2"⟩] ∧
    fix_team_gap_violation noHistoryTeams c4cfg c4games "T" c4g1 c4g2 =
      some (true, [c4g0, c4g1, c4c1,
        { c4c2 with scheduledDate := 30 }, { c4g2 with scheduledDate := 20 }]) ∧
    (10 : Int) < 12 := by
  exact ⟨by decide, by decide, by decide, by decide, by decide⟩

/-- C5 counterexample: the schedule c5games has no same-day conflict,
yet _is_swap_valid (the cap-fix feasibility check) accepts the date
swap of the X-Y game with the Z-W game although the resulting schedule
has team X in two games on day 20: the check looks only at rest days
and never at same-day conflicts. -/
theorem cap_fix_validity_accepts_conflicting_swap :
    hasSameDayDup c5games = false ∧
    is_swap_valid noHistoryTeams 1 c5g1 c5g2 = true ∧
    simulate_swap c5games c5g1.gameId c5g2.gameId =
      some [⟨"X", "Y", 20, 1, 0, 60⟩, ⟨"Z", "W", 10, 2, 0, 60⟩, ⟨"X", "Q", 20, 3, 0, 60⟩] ∧
    teamDateAppearances
      [⟨"X", "Y", 20, 1, 0, 60⟩, ⟨"Z", "W", 10, 2, 0, 60⟩, ⟨"X", "Q", 20, 3, 0, 60⟩]
      20 "X" = 2 := by
  exact ⟨by decide, by decide, by decide, by decide⟩

/-- Helper (C5): when the set walk reports no duplicate, the walked list
has no duplicates and avoids the seen set. -/
theorem seenWalk_eq_false (l : List String) :
    ∀ seen, seenWalk l seen = false → l.Nodup ∧ ∀ x ∈ l, x ∉ seen := by
  induction l with
  | nil => intro seen _; exact ⟨List.nodup_nil, by simp⟩
  | cons t rest ih =>
      intro seen h
      unfold seenWalk at h
      by_cases hmem : t ∈ seen
      · simp [hmem] at h
      · simp only [hmem, if_false] at h
        obtain ⟨hnd, havoid⟩ := ih (t :: seen) h
        constructor
        · refine List.nodup_cons.mpr ⟨?_, hnd⟩
          intro hc
          exact (havoid t hc) (List.mem_cons_self t seen)
        · intro x hx
          rcases List.mem_cons.mp hx with rfl | hx
          · exact hmem
          · intro hxs
            exact (havoid x hx) (List.mem_cons_of_mem t hxs)

/-- Helper (C5): effect of one bucket insertion on group lookup. -/
theorem findGroup_insertGroup (acc : List (Nat × List SGame)) (g : SGame) (e : Nat) :
    findGroup (insertGroup acc g) e =
      if g.scheduledDate = e then some ((findGroup acc e).getD [] ++ [g])
      else findGroup acc e := by
  induction acc with
  | nil =>
      by_cases hde : g.scheduledDate = e <;> simp [insertGroup, findGroup, hde]
  | cons pr rest ih =>
      obtain ⟨d, gs⟩ := pr
      by_cases hgd : g.scheduledDate = d
      · subst hgd
        by_cases hde : g.scheduledDate = e
        · subst hde
          simp [insertGroup, findGroup]
        · simp [insertGroup, findGroup, hde, Ne.symm hde]
      · by_cases hde : d = e
        · have hge : ¬ g.scheduledDate = e := by
            rw [← hde]
            exact hgd
          simp [insertGroup, findGroup, hgd, hde, hge]
        · simp [insertGroup, findGroup, hgd, hde, ih]

/-- Helper (C5): the bucket of date e after folding insertGroup holds the
previous bucket followed by all games of date e, in order. -/
theorem findGroup_foldl_getD (games : List SGame) :
    ∀ (acc : List (Nat × List SGame)) (e : Nat),
      (findGroup (games.foldl insertGroup acc) e).getD [] =
        (findGroup acc e).getD [] ++ games.filter (fun g => g.scheduledDate = e) := by
  induction games with
  | nil => intro acc e; simp
  | cons g gs ih =>
      intro acc e
      rw [List.foldl_cons, ih (insertGroup acc g) e, findGroup_insertGroup]
      by_cases hde : g.scheduledDate = e
      · simp [hde, List.filter_cons, List.append_assoc]
      · simp [hde, List.filter_cons]

/-- Helper (C5): a nonempty date bucket is present in the grouping. -/
theorem findGroup_groupByDate (games : List SGame) (e : Nat)
    (hne : games.filter (fun g => g.scheduledDate = e) ≠ []) :
    findGroup (groupByDate games) e =
      some (games.filter (fun g => g.scheduledDate = e)) := by
  have h := findGroup_foldl_getD games [] e
  simp only [findGroup, Option.getD_none, List.nil_append] at h
  cases hfg : findGroup (groupByDate games) e with
  | none =>
      rw [groupByDate] at hfg
      rw [hfg] at h
      simp only [Option.getD_none] at h
      exact absurd h.symm hne
  | some gs =>
      rw [groupByDate] at hfg
      rw [hfg] at h
      simp only [Option.getD_some] at h
      rw [h]

/-- Helper (C5): a successful group lookup is a membership. -/
theorem findGroup_mem (l : List (Nat × List SGame)) (e : Nat) (gs : List SGame)
    (h : findGroup l e = some gs) : (e, gs) ∈ l := by
  induction l with
  | nil => simp [findGroup] at h
  | cons pr rest ih =>
      obtain ⟨d, gs'⟩ := pr
      unfold findGroup at h
      by_cases hde : d = e
      · subst hde
        simp at h
        subst h
        exact List.mem_cons_self _ _
      · simp [hde] at h
        exact List.mem_cons_of_mem _ (ih h)

/-- Helper (C5): if the conflict walk finds no duplicate, then no team
appears twice on any date. -/
theorem hasSameDayDup_eq_false (l : List SGame) (hs : hasSameDayDup l = false) :
    ∀ d t, teamDateAppearances l d t ≤ 1 := by
  intro d t
  by_contra hc
  push_neg at hc
  have h2 : 2 ≤ (dateTeams (l.filter (fun g => g.scheduledDate = d))).count t := by
    unfold teamDateAppearances at hc
    unfold dateTeams
    omega
  have hne : l.filter (fun g => g.scheduledDate = d) ≠ [] := by
    intro h0
    rw [h0] at h2
    simp [dateTeams] at h2
  have hfg := findGroup_groupByDate l d hne
  have hmem := findGroup_mem _ _ _ hfg
  have hall : ∀ (a : Nat) (b : List SGame), (a, b) ∈ groupByDate l →
      seenWalk (dateTeams b) [] = false := by
    have h0 : (groupByDate l).any (fun dg => seenWalk (dateTeams dg.2) []) = false := by
      simpa [hasSameDayDup] using hs
    intro a b hab
    have h1 := List.any_eq_false.mp h0 (a, b) hab
    simpa using h1
  have hwalk := hall d _ hmem
  obtain ⟨hnd, _⟩ := seenWalk_eq_false _ _ hwalk
  have hcount := List.nodup_iff_count_le_one.mp hnd t
  omega

/-- C5 amended: the weekday-balance feasibility check is sound.  If
_would_create_conflict reports no conflict for a date swap, then in the
swapped schedule no team appears in two games on the same date.  (The
cap-fix check _is_swap_valid does NOT have this property: it checks
only rest days, see the counterexample.) -/
theorem weekday_balance_swap_preserves_no_conflict
    (games : List SGame) (game1 game2 : SGame) (res : List SGame)
    (hsim : simulate_swap games game1.gameId game2.gameId = some res)
    (hchk : would_create_conflict games game1 game2 = some false)
    (d : Nat) (t : String) :
    teamDateAppearances res d t ≤ 1 := by
  unfold would_create_conflict at hchk
  rw [hsim] at hchk
  simp only [Option.map_some', Option.some.injEq] at hchk
  exact hasSameDayDup_eq_false res hchk d t

/-- C5 witness: the soundness theorem applied to a concrete two-game
schedule whose swap passes the conflict check. -/
theorem weekday_balance_swap_preserves_no_conflict_witness :
    simulate_swap [c5g1, c5g2] c5g1.gameId c5g2.gameId =
      some [⟨"X", "Y", 20, 1, 0, 60⟩, ⟨"Z", "W", 10, 2, 0, 60⟩] ∧
    would_create_conflict [c5g1, c5g2] c5g1 c5g2 = some false ∧
    teamDateAppearances [⟨"X", "Y", 20, 1, 0, 60⟩, ⟨"Z", "W", 10, 2, 0, 60⟩] 20 "X" ≤ 1 :=
  ⟨by decide, by decide,
    weekday_balance_swap_preserves_no_conflict [c5g1, c5g2] c5g1 c5g2
      [⟨"X", "Y", 20, 1, 0, 60⟩, ⟨"Z", "W", 10, 2, 0, 60⟩]
      (by decide) (by decide) 20 "X"⟩

/-- C6: whatever the placement phases do to the cleared bucket (any
rebuild of the same length), every slot of the result of
_place_teams_in_late_slots keeps its original start, end and rink; only
home, away and div (the remaining three fields of a game row) can
differ.  The except-branch of the source returns the bucket unchanged
and satisfies this trivially. -/
theorem late_optimizer_preserves_time_structure
    (phases : List OGame → List OGame) (bucket : List OGame)
    (hlen : (phases (bucket.map clearGame)).length = bucket.length)
    (i : Nat) (hi : i < bucket.length) :
    (place_teams_in_late_slots phases bucket).length = bucket.length ∧
    ((place_teams_in_late_slots phases bucket).getD i default).start
        = (bucket.getD i default).start ∧
    ((place_teams_in_late_slots phases bucket).getD i default).endT
        = (bucket.getD i default).endT ∧
    ((place_teams_in_late_slots phases bucket).getD i default).rink
        = (bucket.getD i default).rink := by
  unfold place_teams_in_late_slots restoreTimeStructure
  have hi2 : i < (phases (bucket.map clearGame)).length := by
    rw [hlen]
    exact hi
  have hilen : i < (List.mapIdx (fun i g =>
      match bucket[i]? with
      | some o =>
          if g.start ≠ o.start ∨ g.endT ≠ o.endT ∨ g.rink ≠ o.rink then
            { g with start := o.start, endT := o.endT, rink := o.rink }
          else g
      | none => g) (phases (bucket.map clearGame))).length := by
    rw [List.length_mapIdx, hlen]
    exact hi
  refine ⟨by rw [List.length_mapIdx, hlen], ?_, ?_, ?_⟩ <;>
  · rw [List.getD_eq_getElem _ _ hilen, List.getD_eq_getElem _ _ hi,
      List.getElem_mapIdx, List.getElem?_eq_getElem hi]
    simp only []
    split
    · rfl
    · rename_i hcond
      push_neg at hcond
      simp [hcond.1, hcond.2.1, hcond.2.2]

/-- C6 witness: the frame theorem applied to a concrete bucket and a
concrete phase function at index 0. -/
theorem late_optimizer_preserves_time_structure_witness :
    (c6phases (c6bucket.map clearGame)).length = c6bucket.length ∧
    0 < c6bucket.length ∧
    ((place_teams_in_late_slots c6phases c6bucket).getD 0 default).start
        = (c6bucket.getD 0 default).start :=
  ⟨by decide, by decide,
    (late_optimizer_preserves_time_structure c6phases c6bucket (by decide) 0
      (by decide)).2.1⟩

/-- C1: on the C1 input, build_schedule returns normally with a single
game, although block 1 (the slot with id 2) is a FULL block whose slot
composition exactly matches the recipe, and no team of division div2
appears in any game of that block: the strict filler stops for good
once every team reaches games_per_team, the heuristic and force fill
refuse capped teams, and _validate_full_blocks only inspects blocks
that already hold block_size games, so the empty full block passes
validation silently.  This contradicts the module docstring (each team
appears exactly once in every full recipe-matching block - no zeros).
The identity and reversing oracles both give this result; every
shuffle on this input acts on a list of at most one element. -/
theorem strict_once_violated_on_skipped_block :
    build_schedule c1oracle c1params c1slots c1teams = some [c1game] ∧
    build_schedule c1oracleRev c1params c1slots c1teams = some [c1game] ∧
    segment_and_assign_divisions 1 [("div2", 1)] (sortSlotsByStart c1processed0) =
      some [c1slotA, c1slotB] ∧
    ([c1slotA, c1slotB].filter (fun s => s.segment = 1)).length = 1 ∧
    countAssignedDivs ([c1slotA, c1slotB].filter (fun s => s.segment = 1)) =
      [("div2", 1)] ∧
    [c1game].filter (fun g => g.slotId = c1slotB.slotId) = [] ∧
    (0 : Nat) ≠ 1 := by
  exact ⟨by decide, by decide, by decide, by decide, by decide, by decide, by decide⟩

/-- C7: two runs of generate_enhanced_schedule on identical inputs
(identical slots, teams, params including the seed) produce identical
results, whatever the global RNG state was before each run:
EnhancedScheduler.__init__ reseeds the random module from params.seed,
so the pre-existing state (externalRngState) never influences the
schedule, and all tie-breaking derives from the seed alone. -/
theorem generate_schedule_deterministic (randomModule : Nat → ShuffleOracle)
    (ext1 ext2 : Nat) (slots : List RawSlot) (teams : List TeamRec) (params : EParams) :
    generate_enhanced_schedule randomModule ext1 slots teams params =
      generate_enhanced_schedule randomModule ext2 slots teams params := rfl

/-- C8 counterexample: with block size 2 and a two-division recipe,
the tail slot of the 3-slot list (a partial block) does NOT keep
assigned_division "All": the stamping loop cycles the template through
every block, partial tail included, so the tail slot is stamped
"div2". -/
theorem partial_tail_block_is_stamped :
    segment_and_assign_divisions 2 [("div2", 1), ("div4", 1)] c8slots =
      some [⟨1, 0, 600, 0, 660, "R", "Early", 0, "div2"⟩,
            ⟨2, 1, 600, 1, 660, "R", "Early", 0, "div4"⟩,
            ⟨3, 2, 600, 2, 660, "R", "Early", 1, "div2"⟩] ∧
    c8slots.length % 2 ≠ 0 ∧
    (⟨3, 2, 600, 2, 660, "R", "Early", 1, "div2"⟩ : PSlot).assignedDivision ≠ "All" := by
  exact ⟨by decide, by decide, by decide⟩

/-- Helper (C8): one template pass keeps the remaining keys and appends
only recipe tags to the template. -/
theorem templatePassGo_spec (bs : Nat) :
    ∀ (remain : List (String × Nat)) (tpl : List String),
      (templatePassGo bs remain tpl).1.map (·.1) = remain.map (·.1) ∧
      ∀ x ∈ (templatePassGo bs remain tpl).2, x ∈ tpl ∨ x ∈ remain.map (·.1) := by
  intro remain
  induction remain with
  | nil => intro tpl; exact ⟨rfl, fun x hx => Or.inl hx⟩
  | cons kv rest ih =>
      intro tpl
      obtain ⟨d, c⟩ := kv
      unfold templatePassGo
      by_cases hc : 0 < c ∧ tpl.length < bs
      · rw [if_pos hc]
        refine ⟨by simp [(ih (tpl ++ [d])).1], ?_⟩
        intro x hx
        rcases (ih (tpl ++ [d])).2 x hx with hx | hx
        · rcases List.mem_append.mp hx with hx | hx
          · exact Or.inl hx
          · simp only [List.mem_singleton] at hx
            subst hx
            exact Or.inr (by simp)
        · exact Or.inr (by simp [hx])
      · rw [if_neg hc]
        refine ⟨by simp [(ih tpl).1], ?_⟩
        intro x hx
        rcases (ih tpl).2 x hx with hx | hx
        · exact Or.inl hx
        · exact Or.inr (by simp [hx])

/-- Helper (C8): every template element is a tag of the per-block
counts. -/
theorem buildTemplate_spec (bs : Nat) :
    ∀ (fuel : Nat) (remain : List (String × Nat)) (tpl : List String),
      ∀ x ∈ buildTemplate bs fuel remain tpl, x ∈ tpl ∨ x ∈ remain.map (·.1) := by
  intro fuel
  induction fuel with
  | zero => intro remain tpl x hx; exact Or.inl hx
  | succ fuel ih =>
      intro remain tpl x hx
      unfold buildTemplate at hx
      by_cases hlen : tpl.length < bs
      · rw [if_pos hlen] at hx
        rcases ih _ _ x hx with hx | hx
        · rcases (templatePassGo_spec bs remain tpl).2 x hx with h | h
          · exact Or.inl h
          · exact Or.inr h
        · rw [(templatePassGo_spec bs remain tpl).1] at hx
          exact Or.inr hx
      · rw [if_neg hlen] at hx
        exact Or.inl hx

/-- Helper (C8): incrementing a key keeps the key list. -/
theorem incKeyList_keys (d : String) :
    ∀ (l : List (String × Nat)), (incKeyList l d).map (·.1) = l.map (·.1) := by
  intro l
  induction l with
  | nil => rfl
  | cons kv rest ih =>
      obtain ⟨k, v⟩ := kv
      unfold incKeyList
      by_cases h : k = d
      · rw [if_pos h]; simp [h]
      · rw [if_neg h]; simp [ih]

/-- Helper (C8): the remainder distribution keeps the key list. -/
theorem distributeRem_keys (order : List String) :
    ∀ (r i : Nat) (l : List (String × Nat)),
      (distributeRem order r i l).map (·.1) = l.map (·.1) := by
  intro r
  induction r with
  | zero => intro i l; rfl
  | succ r ih =>
      intro i l
      unfold distributeRem
      rw [ih, incKeyList_keys]

/-- Helper (C8): scaling keeps the recipe key list. -/
theorem scaledCounts_keys (bs : Nat) (recipe : List (String × Nat)) :
    (scaledCounts bs recipe).map (·.1) = recipe.map (·.1) := by
  unfold scaledCounts
  by_cases h : (recipe.map (·.2)).sum = bs
  · rw [if_pos h]
  · rw [if_neg h, distributeRem_keys]
    unfold scaleRecipeEntries
    simp

/-- Helper (C8): the stamping pass preserves lengths. -/
theorem stampSegGo_length (tpl : List String) (seg : Nat) :
    ∀ (slots : List PSlot) (k : Nat), (stampSegGo tpl seg slots k).length = slots.length := by
  intro slots
  induction slots with
  | nil => intro k; rfl
  | cons s rest ih =>
      intro k
      unfold stampSegGo
      by_cases h : s.segment = seg
      · rw [if_pos h]; simp [ih]
      · rw [if_neg h]; simp [ih]

/-- Helper (C8): pointwise effect of the stamping pass: segments are
preserved; a slot of the stamped segment receives a template element;
other slots are untouched. -/
theorem stampSegGo_getD (tpl : List String) (seg : Nat) :
    ∀ (slots : List PSlot) (k j : Nat), j < slots.length →
      ((stampSegGo tpl seg slots k).getD j default).segment
          = (slots.getD j default).segment ∧
      ((stampSegGo tpl seg slots k).getD j default = slots.getD j default ∨
        ((stampSegGo tpl seg slots k).getD j default).assignedDivision ∈ tpl) ∧
      ((slots.getD j default).segment = seg → tpl ≠ [] →
        ((stampSegGo tpl seg slots k).getD j default).assignedDivision ∈ tpl) := by
  intro slots
  induction slots with
  | nil => intro k j hj; simp at hj
  | cons s rest ih =>
      intro k j hj
      unfold stampSegGo
      by_cases hseg : s.segment = seg
      · rw [if_pos hseg]
        cases j with
        | zero =>
            simp only [List.getD_cons_zero]
            have helem : ∀ htpl : tpl ≠ [],
                ({ s with assignedDivision :=
                    tpl.getD (k % tpl.length) s.assignedDivision } : PSlot).assignedDivision
                  ∈ tpl := by
              intro htpl
              have hlen : 0 < tpl.length := List.length_pos.mpr htpl
              have hk : k % tpl.length < tpl.length := Nat.mod_lt _ hlen
              show tpl.getD (k % tpl.length) s.assignedDivision ∈ tpl
              rw [List.getD_eq_getElem _ _ hk]
              exact List.getElem_mem hk
            refine ⟨trivial, ?_, fun _ htpl => helem htpl⟩
            by_cases htpl : tpl = []
            · subst htpl
              left
              show ({ s with assignedDivision := List.getD [] _ s.assignedDivision } : PSlot) = s
              rfl
            · exact Or.inr (helem htpl)
        | succ j =>
            simp only [List.getD_cons_succ]
            exact ih (k + 1) j (by simpa using hj)
      · rw [if_neg hseg]
        cases j with
        | zero =>
            simp only [List.getD_cons_zero]
            exact ⟨trivial, Or.inl trivial, fun h _ => absurd h hseg⟩
        | succ j =>
            simp only [List.getD_cons_succ]
            exact ih k j (by simpa using hj)

/-- Helper (C8): the segment-range fold preserves lengths. -/
theorem stampFold_length (tpl : List String) :
    ∀ (L : List Nat) (sl : List PSlot),
      (L.foldl (fun acc seg => stampSeg tpl seg acc) sl).length = sl.length := by
  intro L
  induction L with
  | nil => intro sl; rfl
  | cons seg0 L ih =>
      intro sl
      simp only [List.foldl_cons]
      rw [ih]
      exact stampSegGo_length tpl seg0 sl 0

/-- Helper (C8): pointwise effect of stamping every segment of L. -/
theorem stampFold_getD (tpl : List String) :
    ∀ (L : List Nat) (sl : List PSlot) (j : Nat), j < sl.length →
      ((L.foldl (fun acc seg => stampSeg tpl seg acc) sl).getD j default).segment
          = (sl.getD j default).segment ∧
      ((L.foldl (fun acc seg => stampSeg tpl seg acc) sl).getD j default
          = sl.getD j default ∨
        ((L.foldl (fun acc seg => stampSeg tpl seg acc) sl).getD j
          default).assignedDivision ∈ tpl) ∧
      ((sl.getD j default).segment ∈ L → tpl ≠ [] →
        ((L.foldl (fun acc seg => stampSeg tpl seg acc) sl).getD j
          default).assignedDivision ∈ tpl) := by
  intro L
  induction L with
  | nil =>
      intro sl j hj
      exact ⟨rfl, Or.inl rfl, by simp⟩
  | cons seg0 L ih =>
      intro sl j hj
      simp only [List.foldl_cons]
      have h1 := stampSegGo_getD tpl seg0 sl 0 j hj
      have hj1 : j < (stampSeg tpl seg0 sl).length := by
        show j < (stampSegGo tpl seg0 sl 0).length
        rw [stampSegGo_length]
        exact hj
      have h2 := ih (stampSeg tpl seg0 sl) j hj1
      have hstamp : stampSeg tpl seg0 sl = stampSegGo tpl seg0 sl 0 := rfl
      refine ⟨?_, ?_, ?_⟩
      · rw [h2.1, hstamp, h1.1]
      · rcases h2.2.1 with h | h
        · rw [h, hstamp]
          rcases h1.2.1 with h' | h'
          · exact Or.inl h'
          · exact Or.inr h'
        · exact Or.inr h
      · intro hmem htpl
        rcases List.mem_cons.mp hmem with heq | hmem
        · have hdiv : ((stampSeg tpl seg0 sl).getD j default).assignedDivision ∈ tpl := by
            rw [hstamp]
            exact h1.2.2 heq htpl
          rcases h2.2.1 with h | h
          · rw [h]; exact hdiv
          · exact h
        · refine h2.2.2 ?_ htpl
          rw [hstamp, h1.1]
          exact hmem

/-- C8 amended: when a (nonempty) recipe is present, the segmenter
stamps EVERY slot of the result - the slots of the partial tail block
included - with one of the recipe division tags; assigned_division
stays "any"/"All" only when no recipe is configured. -/
theorem segmenter_stamps_every_slot_with_recipe_division
    (blockSize : Nat) (blockRecipe : List (String × Nat)) (slots res : List PSlot)
    (hres : segment_and_assign_divisions blockSize blockRecipe slots = some res)
    (hrec : blockRecipe ≠ []) (s : PSlot) (hs : s ∈ res) :
    s.assignedDivision ∈ blockRecipe.map (·.1) := by
  unfold segment_and_assign_divisions at hres
  by_cases h0 : blockSize = 0
  · rw [if_pos h0] at hres
    exact Option.noConfusion hres
  · rw [if_neg h0, if_neg hrec] at hres
    by_cases hsum : (blockRecipe.map (·.2)).sum = 0
    · rw [if_pos hsum] at hres
      exact Option.noConfusion hres
    · rw [if_neg hsum] at hres
      cases hlast : (slots.mapIdx
          (fun i s => { s with segment := i / blockSize })).getLast? with
      | none =>
          rw [hlast] at hres
          exact Option.noConfusion hres
      | some lastSlot =>
          rw [hlast] at hres
          dsimp only at hres
          by_cases htpl : mkTemplate blockSize (scaledCounts blockSize blockRecipe) = []
          · rw [if_pos htpl] at hres
            exact Option.noConfusion hres
          · rw [if_neg htpl] at hres
            injection hres with hres
            subst hres
            rw [List.mem_iff_getElem] at hs
            obtain ⟨j, hj, hsj⟩ := hs
            rw [stampFold_length] at hj
            have hj' : j < (slots.mapIdx
                (fun i s => ({ s with segment := i / blockSize } : PSlot))).length := hj
            have hjs : j < slots.length := by
              rw [List.length_mapIdx] at hj'
              exact hj'
            have hseg_j : ((slots.mapIdx
                (fun i s => ({ s with segment := i / blockSize } : PSlot))).getD j
                  default).segment = j / blockSize := by
              rw [List.getD_eq_getElem _ _ hj', List.getElem_mapIdx]
            have hlast' := hlast
            rw [List.getLast?_eq_getElem?] at hlast'
            have hlen_pos : 0 < slots.length := by
              by_contra h0
              push_neg at h0
              interval_cases hsl : slots.length
              · rw [List.length_mapIdx (l := slots)] at hlast'
                rw [List.getElem?_eq_none (by omega)] at hlast'
                exact Option.noConfusion hlast'
            have hlast_lt : (slots.mapIdx
                (fun i s => ({ s with segment := i / blockSize } : PSlot))).length - 1 <
                (slots.mapIdx (fun i s => ({ s with segment := i / blockSize } : PSlot))).length := by
              rw [List.length_mapIdx]
              omega
            have hlast_seg : lastSlot.segment = (slots.length - 1) / blockSize := by
              rw [List.getElem?_eq_getElem hlast_lt] at hlast'
              have := (Option.some.inj hlast').symm
              rw [this, List.getElem_mapIdx]
              simp [List.length_mapIdx]
            have hmem_range : ((slots.mapIdx
                (fun i s => ({ s with segment := i / blockSize } : PSlot))).getD j
                  default).segment ∈ List.range (lastSlot.segment + 1) := by
              rw [List.mem_range, hseg_j, hlast_seg]
              exact Nat.lt_succ_of_le (Nat.div_le_div_right (by omega))
            have hmain := (stampFold_getD
              (mkTemplate blockSize (scaledCounts blockSize blockRecipe))
              (List.range (lastSlot.segment + 1))
              (slots.mapIdx (fun i s => ({ s with segment := i / blockSize } : PSlot)))
              j hj').2.2 hmem_range htpl
            rw [List.getD_eq_getElem _ _ (by rw [stampFold_length]; exact hj'), hsj] at hmain
            rcases buildTemplate_spec blockSize blockSize
              (scaledCounts blockSize blockRecipe) [] _ hmain with h | h
            · exact absurd h (List.not_mem_nil _)
            · rwa [scaledCounts_keys] at h

/-- C8 amended witness: the stamping theorem applied to the concrete
3-slot input, at the tail slot of the partial block. -/
theorem segmenter_stamps_every_slot_witness :
    segment_and_assign_divisions 2 [("div2", 1), ("div4", 1)] c8slots =
      some [⟨1, 0, 600, 0, 660, "R", "Early", 0, "div2"⟩,
            ⟨2, 1, 600, 1, 660, "R", "Early", 0, "div4"⟩,
            ⟨3, 2, 600, 2, 660, "R", "Early", 1, "div2"⟩] ∧
    ([("div2", 1), ("div4", 1)] : List (String × Nat)) ≠ [] ∧
    (⟨3, 2, 600, 2, 660, "R", "Early", 1, "div2"⟩ : PSlot).assignedDivision ∈
      ([("div2", 1), ("div4", 1)] : List (String × Nat)).map (·.1) :=
  ⟨by decide, by decide,
    segmenter_stamps_every_slot_with_recipe_division 2 [("div2", 1), ("div4", 1)]
      c8slots
      [⟨1, 0, 600, 0, 660, "R", "Early", 0, "div2"⟩,
       ⟨2, 1, 600, 1, 660, "R", "Early", 0, "div4"⟩,
       ⟨3, 2, 600, 2, 660, "R", "Early", 1, "div2"⟩]
      (by decide) (by decide)
      ⟨3, 2, 600, 2, 660, "R", "Early", 1, "div2"⟩ (by decide)⟩

/-- Helper (C9): insertion by count is a permutation of consing. -/
theorem insertByCount_perm (cnt : String → Nat) (t : String) :
    ∀ l : List String, List.Perm (insertByCount cnt t l) (t :: l) := by
  intro l
  induction l with
  | nil => rfl
  | cons x xs ih =>
      unfold insertByCount
      by_cases h : cnt t < cnt x
      · rw [if_pos h]
      · rw [if_neg h]
        exact (ih.cons x).trans (List.Perm.swap t x xs)

/-- Helper (C9): the candidate sort is a permutation of its input. -/
theorem sortByCount_perm (cnt : String → Nat) :
    ∀ l : List String, List.Perm (sortByCount cnt l) l := by
  intro l
  induction l with
  | nil => rfl
  | cons x xs ih =>
      show List.Perm (insertByCount cnt x (sortByCount cnt xs)) (x :: xs)
      exact (insertByCount_perm cnt x (sortByCount cnt xs)).trans (ih.cons x)

/-- Helper (C9): membership through the stable slot insertion. -/
theorem mem_insertSlotByStart (s p : PSlot) :
    ∀ l : List PSlot, p ∈ insertSlotByStart s l ↔ p = s ∨ p ∈ l := by
  intro l
  induction l with
  | nil => simp [insertSlotByStart]
  | cons x xs ih =>
      unfold insertSlotByStart
      by_cases h : slotStartKey s < slotStartKey x
      · rw [if_pos h]
        simp
      · rw [if_neg h]
        simp only [List.mem_cons, ih]
        try tauto

/-- Helper (C9): sorting the leftover slots preserves membership. -/
theorem mem_sortSlotsByStart (p : PSlot) :
    ∀ l : List PSlot, p ∈ sortSlotsByStart l ↔ p ∈ l := by
  intro l
  induction l with
  | nil => simp [sortSlotsByStart]
  | cons x xs ih =>
      show p ∈ insertSlotByStart x (sortSlotsByStart xs) ↔ _
      rw [mem_insertSlotByStart]
      simp only [List.mem_cons, ih]
      try tauto

/-- Helper (C9): evaluating a counter bump. -/
theorem bumpTeam_apply (f : String → Nat) (a t : String) :
    bumpTeam f a t = if t = a then f t + 1 else f t := by
  unfold bumpTeam updf
  by_cases h : t = a
  · rw [if_pos h, if_pos h, h]
  · rw [if_neg h, if_neg h]

/-- Helper (C9): membership in the played set after a set add. -/
theorem addTeamSeg_mem (f : Nat → List String) (seg : Nat) (a t : String) (q : Nat) :
    t ∈ addTeamSeg f seg a q ↔ t ∈ f q ∨ (q = seg ∧ t = a) := by
  unfold addTeamSeg updf
  by_cases h : q = seg
  · rw [if_pos h]
    subst h
    by_cases ha : a ∈ f q
    · rw [if_pos ha]
      constructor
      · intro ht; exact Or.inl ht
      · intro ht
        rcases ht with ht | ⟨_, ht⟩
        · exact ht
        · rw [ht]; exact ha
    · rw [if_neg ha]
      simp only [List.mem_append, List.mem_singleton]
      tauto
  · rw [if_neg h]
    simp [h]

/-- Helper (C9): appending one game to the schedule changes the
per-segment appearance count by that game's contribution only. -/
theorem segAppearances_append_single (segOf : Nat → Nat) (games : List Game)
    (g : Game) (seg : Nat) (t : String) :
    segAppearances segOf (games ++ [g]) seg t =
      segAppearances segOf games seg t +
        (if segOf g.slotId = seg then ([g.home, g.away] : List String).count t else 0) := by
  unfold segAppearances
  rw [List.filter_append]
  by_cases h : segOf g.slotId = seg
  · rw [if_pos h]
    have : List.filter (fun g => decide (segOf g.slotId = seg)) [g] = [g] := by
      simp [List.filter, h]
    rw [this, List.flatMap_append, List.count_append]
    simp
  · rw [if_neg h]
    have : List.filter (fun g => decide (segOf g.slotId = seg)) [g] = [] := by
      simp [List.filter, h]
    rw [this, List.append_nil]
    simp

/-- Helper (C9): counting a team in a two-element matchup list. -/
theorem count_pair (x y t : String) :
    ([x, y] : List String).count t =
      (if x = t then 1 else 0) + (if y = t then 1 else 0) := by
  by_cases hx : x = t <;> by_cases hy : y = t <;>
    simp [List.count_cons, hx, hy]

/-- Helper (C9): a force-fill candidate is below the cap and has not
played in the slot segment. -/
theorem mem_forceCandidates (gamesPerTeam : Nat) (teamKeys : List String)
    (teamDiv : String → String) (st : ForceState) (s : PSlot) (t : String)
    (ht : t ∈ forceCandidates gamesPerTeam teamKeys teamDiv st s) :
    t ∈ teamKeys ∧ st.teamGameCount t < gamesPerTeam ∧
      t ∉ st.playedInSegment s.segment := by
  unfold forceCandidates at ht
  by_cases h : s.assignedDivision = "All"
  · rw [if_pos h] at ht
    have hm := List.mem_filter.mp ht
    exact ⟨hm.1, of_decide_eq_true hm.2⟩
  · rw [if_neg h] at ht
    have hm := List.mem_filter.mp ht
    exact ⟨hm.1, (of_decide_eq_true hm.2).2⟩

/-- Helper (C9): candidate lists are duplicate-free when the team key
list is. -/
theorem forceCandidates_nodup (gamesPerTeam : Nat) (teamKeys : List String)
    (teamDiv : String → String) (st : ForceState) (s : PSlot)
    (hkeys : teamKeys.Nodup) :
    (forceCandidates gamesPerTeam teamKeys teamDiv st s).Nodup := by
  unfold forceCandidates
  by_cases h : s.assignedDivision = "All"
  · rw [if_pos h]
    exact hkeys.filter _
  · rw [if_neg h]
    exact hkeys.filter _

/-- Helper (C9): appending one game whose two sides are a fresh distinct
pair of the slot segment preserves the once-per-segment bound. -/
theorem seg_invariant_step (segOf : Nat → Nat) (games : List Game)
    (played : Nat → List String) (g : Game) (sseg : Nat) (a b : String)
    (hslot : segOf g.slotId = sseg) (hab : a ≠ b)
    (hcnt : ∀ t : String, ([g.home, g.away] : List String).count t =
      (if a = t then 1 else 0) + (if b = t then 1 else 0))
    (hapld : a ∉ played sseg) (hbpld : b ∉ played sseg)
    (hinv : ∀ t seg, segAppearances segOf games seg t ≤
      if t ∈ played seg then 1 else 0) :
    ∀ t seg, segAppearances segOf (games ++ [g]) seg t ≤
      if t ∈ addTeamSeg (addTeamSeg played sseg a) sseg b seg then 1 else 0 := by
  intro t seg
  rw [segAppearances_append_single]
  have hplayed : ∀ (u : String) (q : Nat),
      u ∈ addTeamSeg (addTeamSeg played sseg a) sseg b q ↔
        u ∈ played q ∨ (q = sseg ∧ (u = a ∨ u = b)) := by
    intro u q
    rw [addTeamSeg_mem, addTeamSeg_mem]
    tauto
  by_cases hsq : seg = sseg
  · subst hsq
    rw [if_pos hslot, hcnt t]
    by_cases hta : a = t
    · have htb : ¬ b = t := fun hE => hab (hta.trans hE.symm)
      rw [if_pos hta, if_neg htb]
      have h0 : segAppearances segOf games seg t ≤ 0 := by
        have hi := hinv t seg
        rw [if_neg (by rw [← hta]; exact hapld)] at hi
        exact hi
      have hm : t ∈ addTeamSeg (addTeamSeg played seg a) seg b seg :=
        (hplayed t seg).mpr (Or.inr ⟨rfl, Or.inl hta.symm⟩)
      rw [if_pos hm]
      omega
    · by_cases htb : b = t
      · rw [if_neg hta, if_pos htb]
        have h0 : segAppearances segOf games seg t ≤ 0 := by
          have hi := hinv t seg
          rw [if_neg (by rw [← htb]; exact hbpld)] at hi
          exact hi
        have hm : t ∈ addTeamSeg (addTeamSeg played seg a) seg b seg :=
          (hplayed t seg).mpr (Or.inr ⟨rfl, Or.inr htb.symm⟩)
        rw [if_pos hm]
        omega
      · rw [if_neg hta, if_neg htb]
        by_cases hmem : t ∈ played seg
        · have hm : t ∈ addTeamSeg (addTeamSeg played seg a) seg b seg :=
            (hplayed t seg).mpr (Or.inl hmem)
          rw [if_pos hm]
          have hi := hinv t seg
          rw [if_pos hmem] at hi
          omega
        · have hm : t ∉ addTeamSeg (addTeamSeg played seg a) seg b seg := by
            intro hc
            rcases (hplayed t seg).mp hc with hc | ⟨-, hc | hc⟩
            · exact hmem hc
            · exact hta hc.symm
            · exact htb hc.symm
          rw [if_neg hm]
          have hi := hinv t seg
          rw [if_neg hmem] at hi
          omega
  · have hne : ¬ segOf g.slotId = seg := by
      rw [hslot]
      exact fun hE => hsq hE.symm
    rw [if_neg hne, Nat.add_zero]
    by_cases hmem : t ∈ played seg
    · have hm : t ∈ addTeamSeg (addTeamSeg played sseg a) sseg b seg :=
        (hplayed t seg).mpr (Or.inl hmem)
      rw [if_pos hm]
      have hi := hinv t seg
      rw [if_pos hmem] at hi
      exact hi
    · have hm : t ∉ addTeamSeg (addTeamSeg played sseg a) sseg b seg := by
        intro hc
        rcases (hplayed t seg).mp hc with hc | ⟨hc, -⟩
        · exact hmem hc
        · exact hsq hc
      rw [if_neg hm]
      have hi := hinv t seg
      rw [if_neg hmem] at hi
      exact hi

/-- Helper (C9): committing a pair of distinct, under-cap, fresh
candidates preserves both the cap bound and the once-per-segment
bound. -/
theorem forceCommit_preserves (gamesPerTeam : Nat)
    (teamDiv : String → String) (segOf : Nat → Nat) (cnt0 : String → Nat)
    (st : ForceState) (s : PSlot) (a b : String)
    (hseg : segOf s.slotId = s.segment) (hab : a ≠ b)
    (hacnt : st.teamGameCount a < gamesPerTeam)
    (hbcnt : st.teamGameCount b < gamesPerTeam)
    (hapld : a ∉ st.playedInSegment s.segment)
    (hbpld : b ∉ st.playedInSegment s.segment)
    (hcap : ∀ t, st.teamGameCount t ≤ max (cnt0 t) gamesPerTeam)
    (hinv : ∀ t seg, segAppearances segOf st.games seg t ≤
      if t ∈ st.playedInSegment seg then 1 else 0) :
    (∀ t, (forceCommit teamDiv st s a b).teamGameCount t ≤
      max (cnt0 t) gamesPerTeam) ∧
    (∀ t seg, segAppearances segOf (forceCommit teamDiv st s a b).games seg t ≤
      if t ∈ (forceCommit teamDiv st s a b).playedInSegment seg then 1 else 0) := by
  constructor
  · intro t
    show bumpTeam (bumpTeam st.teamGameCount a) b t ≤ max (cnt0 t) gamesPerTeam
    simp only [bumpTeam_apply]
    by_cases hta : t = a
    · by_cases htb : t = b
      · exact absurd (hta.symm.trans htb) hab
      · rw [if_neg htb, if_pos hta, hta]
        exact le_trans (by omega) (le_max_right (cnt0 a) gamesPerTeam)
    · by_cases htb : t = b
      · rw [if_pos htb, if_neg hta, htb]
        exact le_trans (by omega) (le_max_right (cnt0 b) gamesPerTeam)
      · rw [if_neg htb, if_neg hta]
        exact hcap t
  · have hcnt : ∀ t : String,
        ([(choose_home_away a b st.homeCount).1,
          (choose_home_away a b st.homeCount).2] : List String).count t =
          (if a = t then 1 else 0) + (if b = t then 1 else 0) := by
      intro t
      unfold choose_home_away
      by_cases hch : st.homeCount a ≤ st.homeCount b
      · rw [if_pos hch]
        exact count_pair a b t
      · rw [if_neg hch]
        rw [count_pair, Nat.add_comm]
    exact seg_invariant_step segOf st.games st.playedInSegment _ s.segment a b
      hseg hab hcnt hapld hbpld hinv

/-- Helper (C9): one force-fill slot step preserves the cap bound and
the once-per-segment bound. -/
theorem forceFillSlot_preserves (gamesPerTeam : Nat) (teamKeys : List String)
    (teamDiv : String → String) (segOf : Nat → Nat) (cnt0 : String → Nat)
    (hkeys : teamKeys.Nodup) (st : ForceState) (s : PSlot)
    (hseg : segOf s.slotId = s.segment)
    (hcap : ∀ t, st.teamGameCount t ≤ max (cnt0 t) gamesPerTeam)
    (hinv : ∀ t seg, segAppearances segOf st.games seg t ≤
      if t ∈ st.playedInSegment seg then 1 else 0) :
    (∀ t, (forceFillSlot gamesPerTeam teamKeys teamDiv st s).teamGameCount t ≤
      max (cnt0 t) gamesPerTeam) ∧
    (∀ t seg,
      segAppearances segOf (forceFillSlot gamesPerTeam teamKeys teamDiv st s).games seg t ≤
        if t ∈ (forceFillSlot gamesPerTeam teamKeys teamDiv st s).playedInSegment seg
        then 1 else 0) := by
  unfold forceFillSlot
  by_cases hlen : (forceCandidates gamesPerTeam teamKeys teamDiv st s).length < 2
  · rw [if_pos hlen]
    exact ⟨hcap, hinv⟩
  · rw [if_neg hlen]
    cases hsort : sortByCount st.teamGameCount
        (forceCandidates gamesPerTeam teamKeys teamDiv st s) with
    | nil => exact ⟨hcap, hinv⟩
    | cons a tl =>
        cases tl with
        | nil => exact ⟨hcap, hinv⟩
        | cons b rest =>
            have hperm := sortByCount_perm st.teamGameCount
              (forceCandidates gamesPerTeam teamKeys teamDiv st s)
            rw [hsort] at hperm
            have hnd : (a :: b :: rest).Nodup :=
              hperm.symm.nodup
                (forceCandidates_nodup gamesPerTeam teamKeys teamDiv st s hkeys)
            have hab : a ≠ b := by
              intro hE
              exact (List.nodup_cons.mp hnd).1 (hE ▸ List.mem_cons_self b rest)
            have hamem : a ∈ forceCandidates gamesPerTeam teamKeys teamDiv st s :=
              hperm.mem_iff.mp (List.mem_cons_self a (b :: rest))
            have hbmem : b ∈ forceCandidates gamesPerTeam teamKeys teamDiv st s :=
              hperm.mem_iff.mp (List.mem_cons_of_mem a (List.mem_cons_self b rest))
            obtain ⟨-, hacnt, hapld⟩ :=
              mem_forceCandidates gamesPerTeam teamKeys teamDiv st s a hamem
            obtain ⟨-, hbcnt, hbpld⟩ :=
              mem_forceCandidates gamesPerTeam teamKeys teamDiv st s b hbmem
            exact forceCommit_preserves gamesPerTeam teamDiv segOf cnt0 st s a b
              hseg hab hacnt hbcnt hapld hbpld hcap hinv

/-- Helper (C9): folding force-fill over any slot list whose segments
agree with segOf preserves both bounds. -/
theorem forceFold_preserves (gamesPerTeam : Nat) (teamKeys : List String)
    (teamDiv : String → String) (segOf : Nat → Nat) (cnt0 : String → Nat)
    (hkeys : teamKeys.Nodup) :
    ∀ (L : List PSlot) (st : ForceState),
      (∀ p ∈ L, segOf p.slotId = p.segment) →
      (∀ t, st.teamGameCount t ≤ max (cnt0 t) gamesPerTeam) →
      (∀ t seg, segAppearances segOf st.games seg t ≤
        if t ∈ st.playedInSegment seg then 1 else 0) →
      (∀ t, (L.foldl (forceFillSlot gamesPerTeam teamKeys teamDiv) st).teamGameCount t ≤
        max (cnt0 t) gamesPerTeam) ∧
      (∀ t seg,
        segAppearances segOf
            (L.foldl (forceFillSlot gamesPerTeam teamKeys teamDiv) st).games seg t ≤
          if t ∈ (L.foldl (forceFillSlot gamesPerTeam teamKeys teamDiv)
              st).playedInSegment seg then 1 else 0) := by
  intro L
  induction L with
  | nil => intro st _ hcap hinv; exact ⟨hcap, hinv⟩
  | cons p L ih =>
      intro st hsegs hcap hinv
      simp only [List.foldl_cons]
      have hstep := forceFillSlot_preserves gamesPerTeam teamKeys teamDiv segOf cnt0
        hkeys st p (hsegs p (List.mem_cons_self p L)) hcap hinv
      exact ih (forceFillSlot gamesPerTeam teamKeys teamDiv st p)
        (fun q hq => hsegs q (List.mem_cons_of_mem p hq)) hstep.1 hstep.2

/-- C9: every game added by _force_fill_remaining pairs two teams that
were strictly below games_per_team and had not yet played in the slot
segment, so when every team starts at or below the cap and the
once-per-segment bound holds for the incoming games, both properties
hold of the force-filled result: no team game count exceeds
games_per_team, and no team appears more than once among the games of
any segment. -/
theorem force_fill_preserves_cap_and_once_per_segment
    (gamesPerTeam : Nat) (teamKeys : List String) (teamDiv : String → String)
    (remaining : List PSlot) (games0 : List Game)
    (cnt0 home0 : String → Nat) (played0 : Nat → List String)
    (segOf : Nat → Nat) (t : String) (seg : Nat)
    (hkeys : teamKeys.Nodup)
    (hseg : ∀ p ∈ remaining, segOf p.slotId = p.segment)
    (hcap0 : ∀ u, cnt0 u ≤ gamesPerTeam)
    (hinv0 : ∀ u q, segAppearances segOf games0 q u ≤
      if u ∈ played0 q then 1 else 0) :
    (force_fill_remaining gamesPerTeam teamKeys teamDiv remaining games0 cnt0
        home0 played0).teamGameCount t ≤ gamesPerTeam ∧
    segAppearances segOf (force_fill_remaining gamesPerTeam teamKeys teamDiv
        remaining games0 cnt0 home0 played0).games seg t ≤
      if t ∈ (force_fill_remaining gamesPerTeam teamKeys teamDiv remaining games0
          cnt0 home0 played0).playedInSegment seg then 1 else 0 := by
  have hsegs : ∀ p ∈ sortSlotsByStart remaining, segOf p.slotId = p.segment := by
    intro p hp
    exact hseg p ((mem_sortSlotsByStart p remaining).mp hp)
  have hres := forceFold_preserves gamesPerTeam teamKeys teamDiv segOf cnt0 hkeys
    (sortSlotsByStart remaining) ⟨games0, cnt0, home0, played0⟩ hsegs
    (fun u => le_max_left (cnt0 u) gamesPerTeam) hinv0
  have hdef : force_fill_remaining gamesPerTeam teamKeys teamDiv remaining games0
      cnt0 home0 played0 =
      (sortSlotsByStart remaining).foldl (forceFillSlot gamesPerTeam teamKeys teamDiv)
        ⟨games0, cnt0, home0, played0⟩ := rfl
  rw [hdef]
  refine ⟨?_, hres.2 t seg⟩
  have h1 := hres.1 t
  have h2 := hcap0 t
  omega

/-- C9 witness: the preservation theorem applied to one leftover "All"
slot, two fresh teams, and a cap of one game per team. -/
theorem force_fill_preserves_cap_witness :
    (force_fill_remaining 1 ["A", "B"] (fun _ => "div2")
        [⟨1, 0, 600, 0, 660, "R", "Early", 0, "All"⟩] [] (fun _ => 0) (fun _ => 0)
        (fun _ => [])).teamGameCount "A" ≤ 1 ∧
    segAppearances (fun _ => 0)
        (force_fill_remaining 1 ["A", "B"] (fun _ => "div2")
          [⟨1, 0, 600, 0, 660, "R", "Early", 0, "All"⟩] [] (fun _ => 0) (fun _ => 0)
          (fun _ => [])).games 0 "A" ≤
      if "A" ∈ (force_fill_remaining 1 ["A", "B"] (fun _ => "div2")
          [⟨1, 0, 600, 0, 660, "R", "Early", 0, "All"⟩] [] (fun _ => 0) (fun _ => 0)
          (fun _ => [])).playedInSegment 0 then 1 else 0 :=
  force_fill_preserves_cap_and_once_per_segment 1 ["A", "B"] (fun _ => "div2")
    [⟨1, 0, 600, 0, 660, "R", "Early", 0, "All"⟩] [] (fun _ => 0) (fun _ => 0)
    (fun _ => []) (fun _ => 0) "A" 0 (by decide)
    (by intro p hp; rw [List.mem_singleton] at hp; subst hp; rfl)
    (fun _ => Nat.zero_le 1)
    (by intro u q; simp [segAppearances])
